import Mathlib

/-!
# Convergence engine of the TestOperator controller

A shallow embedding of `controllers/testoperator_controller.go` and
`controllers/yaml_builder.go`.  Go structs become Lean structures with the
same field names, the API client becomes explicit state passing over a
`World` (the backing store plus the log of the calls issued so far), a Go
`error` is an `Option Error` (`none` is `nil`), and a nil-pointer dereference
is the outcome `Exec.panic`.
-/

set_option linter.dupNamespace false

namespace OperatorTest

/-! ## Object model -/

/-- Identity of an object inside one kind: `types.NamespacedName`. -/
structure NamespacedName where
  Namespace : String
  Name : String
deriving DecidableEq, Repr

/-- Kubernetes `metav1.TypeMeta`. -/
structure TypeMeta where
  APIVersion : String := ""
  Kind : String := ""
deriving DecidableEq, Repr

/-- Kubernetes `metav1.OwnerReference`. -/
structure OwnerReference where
  APIVersion : String
  Kind : String
  Name : String
  UID : String
  Controller : Option Bool
  BlockOwnerDeletion : Option Bool
deriving DecidableEq, Repr

/-- Kubernetes `metav1.ObjectMeta`, with the fields this controller reads or writes. -/
structure ObjectMeta where
  Name : String := ""
  Namespace : String := ""
  UID : String := ""
  Labels : List (String × String) := []
  Annotations : List (String × String) := []
  OwnerReferences : List OwnerReference := []
deriving DecidableEq, Repr

/-- Desired state of a TestOperator (`api/v1/testoperator_types.go`). -/
structure TestOperatorSpec where
  Replicas : Int := 0
  Host : String := ""
  Image : String := ""
deriving DecidableEq, Repr

/-- Observed state of a TestOperator: the Go struct has no field. -/
structure TestOperatorStatus where
deriving DecidableEq, Repr

/-- The parent custom resource. -/
structure TestOperator extends TypeMeta, ObjectMeta where
  Spec : TestOperatorSpec := {}
  Status : TestOperatorStatus := {}
deriving DecidableEq, Repr

/-- Kubernetes `corev1.ContainerPort`. -/
structure ContainerPort where
  Name : String
  ContainerPort : Int
  Protocol : String
deriving DecidableEq, Repr

/-- Kubernetes `corev1.Container`. -/
structure Container where
  Name : String
  Image : String
  Ports : List ContainerPort
deriving DecidableEq, Repr

/-- Kubernetes `corev1.PodSpec`. -/
structure PodSpec where
  Containers : List Container := []
deriving DecidableEq, Repr

/-- Kubernetes `corev1.PodTemplateSpec`. -/
structure PodTemplateSpec extends ObjectMeta where
  Spec : PodSpec := {}
deriving DecidableEq, Repr

/-- Kubernetes `metav1.LabelSelector`. -/
structure LabelSelector where
  MatchLabels : List (String × String)
deriving DecidableEq, Repr

/-- Kubernetes `appsv1.DeploymentSpec`; `Replicas` and `Selector` are pointers. -/
structure DeploymentSpec where
  Replicas : Option Int := none
  Selector : Option LabelSelector := none
  Template : PodTemplateSpec := {}
deriving DecidableEq, Repr

/-- The workload: `appsv1.Deployment`. -/
structure Deployment extends TypeMeta, ObjectMeta where
  Spec : DeploymentSpec := {}
deriving DecidableEq, Repr

/-- Kubernetes `intstr.IntOrString`. -/
inductive IntOrString where
  | FromInt (v : Int)
  | FromString (v : String)
deriving DecidableEq, Repr

/-- Kubernetes `corev1.ServicePort`. -/
structure ServicePort where
  Name : String
  Port : Int
  Protocol : String
  TargetPort : IntOrString
deriving DecidableEq, Repr

/-- Kubernetes `corev1.ServiceSpec`. -/
structure ServiceSpec where
  Selector : List (String × String) := []
  Ports : List ServicePort := []
deriving DecidableEq, Repr

/-- The network service: `corev1.Service`. -/
structure Service extends TypeMeta, ObjectMeta where
  Spec : ServiceSpec := {}
deriving DecidableEq, Repr

/-- Kubernetes `networkv1.IngressTLS`. -/
structure IngressTLS where
  Hosts : List String
  SecretName : String
deriving DecidableEq, Repr

/-- Kubernetes `networkv1.ServiceBackendPort`. -/
structure ServiceBackendPort where
  Name : String := ""
  Number : Int := 0
deriving DecidableEq, Repr

/-- Kubernetes `networkv1.IngressServiceBackend`. -/
structure IngressServiceBackend where
  Name : String
  Port : ServiceBackendPort
deriving DecidableEq, Repr

/-- Kubernetes `networkv1.IngressBackend`; `Service` is a pointer. -/
structure IngressBackend where
  Service : Option IngressServiceBackend
deriving DecidableEq, Repr

/-- Kubernetes `networkv1.HTTPIngressPath`; `PathType` is a pointer. -/
structure HTTPIngressPath where
  Path : String
  PathType : Option String
  Backend : IngressBackend
deriving DecidableEq, Repr

/-- Kubernetes `networkv1.HTTPIngressRuleValue`. -/
structure HTTPIngressRuleValue where
  Paths : List HTTPIngressPath
deriving DecidableEq, Repr

/-- Kubernetes `networkv1.IngressRuleValue`; `HTTP` is a pointer. -/
structure IngressRuleValue where
  HTTP : Option HTTPIngressRuleValue := none
deriving DecidableEq, Repr

/-- Kubernetes `networkv1.IngressRule`. -/
structure IngressRule extends IngressRuleValue where
  Host : String
deriving DecidableEq, Repr

/-- Kubernetes `networkv1.IngressSpec`. -/
structure IngressSpec where
  TLS : List IngressTLS := []
  Rules : List IngressRule := []
deriving DecidableEq, Repr

/-- The route: `networkv1.Ingress`. -/
structure Ingress extends TypeMeta, ObjectMeta where
  Spec : IngressSpec := {}
deriving DecidableEq, Repr

/-- The cert-manager `meta.LocalObjectReference`. -/
structure LocalObjectReference where
  Name : String
deriving DecidableEq, Repr

/-- The cert-manager `meta.SecretKeySelector`. -/
structure SecretKeySelector extends LocalObjectReference where
  Key : String := ""
deriving DecidableEq, Repr

/-- The cert-manager `acme.ACMEChallengeSolverHTTP01Ingress`; `Class` is a pointer. -/
structure ACMEChallengeSolverHTTP01Ingress where
  Class : Option String
deriving DecidableEq, Repr

/-- The cert-manager `acme.ACMEChallengeSolverHTTP01`. -/
structure ACMEChallengeSolverHTTP01 where
  Ingress : Option ACMEChallengeSolverHTTP01Ingress
deriving DecidableEq, Repr

/-- The cert-manager `acme.ACMEChallengeSolver`. -/
structure ACMEChallengeSolver where
  HTTP01 : Option ACMEChallengeSolverHTTP01
deriving DecidableEq, Repr

/-- The cert-manager `acme.ACMEIssuer`. -/
structure ACMEIssuer where
  Server : String
  Email : String
  PrivateKey : SecretKeySelector
  Solvers : List ACMEChallengeSolver
deriving DecidableEq, Repr

/-- The cert-manager `certmanager.IssuerConfig`; `ACME` is a pointer. -/
structure IssuerConfig where
  ACME : Option ACMEIssuer := none
deriving DecidableEq, Repr

/-- The cert-manager `certmanager.IssuerSpec`. -/
structure IssuerSpec extends IssuerConfig where
deriving DecidableEq, Repr

/-- The issuer: `certmanager.ClusterIssuer`. -/
structure ClusterIssuer extends TypeMeta, ObjectMeta where
  Spec : IssuerSpec := {}
deriving DecidableEq, Repr

/-- The cert-manager `meta.ObjectReference`. -/
structure ObjectReference where
  Name : String
  Kind : String := ""
  Group : String := ""
deriving DecidableEq, Repr

/-- The cert-manager `certmanager.CertificateSpec`. -/
structure CertificateSpec where
  SecretName : String := ""
  DNSNames : List String := []
  IssuerRef : ObjectReference := { Name := "" }
deriving DecidableEq, Repr

/-- The certificate: `certmanager.Certificate`. -/
structure Certificate extends TypeMeta, ObjectMeta where
  Spec : CertificateSpec := {}
deriving DecidableEq, Repr

/-! ## Errors and outcomes -/

/-- Reason carried by an API status error (`metav1.StatusReason`). -/
inductive StatusReason where
  | NotFound
  | AlreadyExists
  | Conflict
  | Forbidden
  | Timeout
  | InternalError
deriving DecidableEq, Repr

/-- A Go `error` value that is not nil: an API status error or any other error. -/
inductive Error where
  | status (reason : StatusReason) (message : String)
  | other (message : String)
deriving DecidableEq, Repr

/-- The test `errors.IsNotFound`. -/
def IsNotFound : Error → Bool
  | .status .NotFound _ => true
  | _ => false

/-- Outcome of running Go code: it returns a value or it panics. -/
inductive Exec (α : Type) where
  | ret (a : α)
  | panic
deriving DecidableEq, Repr

/-! ## Ownership linker -/

/-- Kubernetes `schema.GroupVersionKind`. -/
structure GroupVersionKind where
  Group : String
  Version : String
  Kind : String
deriving DecidableEq, Repr

/-- The runtime scheme, reduced to what the controller asks of it: the type
metadata of the parent, or the error of the failed lookup. -/
structure Scheme where
  ObjectKinds : TestOperator → Except Error GroupVersionKind

/-- The string `gvk.GroupVersion().String()`. -/
def GroupVersionKind.apiVersion (gvk : GroupVersionKind) : String :=
  if gvk.Group = "" then gvk.Version else gvk.Group ++ "/" ++ gvk.Version

/-- Modelled from the spec: the ownership linker `ctrl.SetControllerReference`
(controller-runtime, outside this repository), after section 4.2: it sets
exactly one controller-owner reference on the descriptor, pointing at the
parent, and its only failure is that the runtime cannot resolve the parent's
type metadata. -/
def SetControllerReference (owner : TestOperator) (controlled : ObjectMeta) (scheme : Scheme) :
    Except Error ObjectMeta :=
  match scheme.ObjectKinds owner with
  | .error err => .error err
  | .ok gvk =>
    .ok { controlled with
          OwnerReferences :=
            [{ APIVersion := gvk.apiVersion, Kind := gvk.Kind, Name := owner.Name,
               UID := owner.UID, Controller := some true, BlockOwnerDeletion := some true }] }

/-! ## Backing store and API client -/

/-- The resource kinds the controller touches. -/
inductive Kind where
  | TestOperator
  | Deployment
  | Service
  | ClusterIssuer
  | Certificate
  | Ingress
deriving DecidableEq, Repr

/-- Modelled from the spec: the scope of each kind in the backing store.  The
issuer is a `ClusterIssuer`, "shared cluster-wide across all parent
instances" (section 3): its identity is its name alone.  Every other kind is
namespaced. -/
def Kind.namespaced : Kind → Bool
  | .ClusterIssuer => false
  | _ => true

/-- The identity under which the store keeps an object of kind `k`: for a
cluster-scoped kind the namespace of the request is dropped. -/
def scopedKey (k : Kind) (key : NamespacedName) : NamespacedName :=
  if k.namespaced then key else { key with Namespace := "" }

/-- Content of the backing store: one table per kind. -/
structure Store where
  testOperators : NamespacedName → Option TestOperator
  deployments : NamespacedName → Option Deployment
  services : NamespacedName → Option Service
  clusterIssuers : NamespacedName → Option ClusterIssuer
  certificates : NamespacedName → Option Certificate
  ingresses : NamespacedName → Option Ingress

/-- Any object the client can be handed. -/
inductive Object where
  | testOperator (o : TestOperator)
  | deployment (o : Deployment)
  | service (o : Service)
  | clusterIssuer (o : ClusterIssuer)
  | certificate (o : Certificate)
  | ingress (o : Ingress)
deriving DecidableEq, Repr

/-- The metadata of an object. -/
def Object.objectMeta : Object → ObjectMeta
  | .testOperator o => o.toObjectMeta
  | .deployment o => o.toObjectMeta
  | .service o => o.toObjectMeta
  | .clusterIssuer o => o.toObjectMeta
  | .certificate o => o.toObjectMeta
  | .ingress o => o.toObjectMeta

/-- A Go type the typed client can read and write. -/
class Resource (α : Type) where
  kind : Kind
  objectMeta : α → ObjectMeta
  toObject : α → Object
  table : Store → NamespacedName → Option α
  setTable : Store → (NamespacedName → Option α) → Store

instance : Resource TestOperator where
  kind := .TestOperator
  objectMeta o := o.toObjectMeta
  toObject := .testOperator
  table s := s.testOperators
  setTable s t := { s with testOperators := t }

instance : Resource Deployment where
  kind := .Deployment
  objectMeta o := o.toObjectMeta
  toObject := .deployment
  table s := s.deployments
  setTable s t := { s with deployments := t }

instance : Resource Service where
  kind := .Service
  objectMeta o := o.toObjectMeta
  toObject := .service
  table s := s.services
  setTable s t := { s with services := t }

instance : Resource ClusterIssuer where
  kind := .ClusterIssuer
  objectMeta o := o.toObjectMeta
  toObject := .clusterIssuer
  table s := s.clusterIssuers
  setTable s t := { s with clusterIssuers := t }

instance : Resource Certificate where
  kind := .Certificate
  objectMeta o := o.toObjectMeta
  toObject := .certificate
  table s := s.certificates
  setTable s t := { s with certificates := t }

instance : Resource Ingress where
  kind := .Ingress
  objectMeta o := o.toObjectMeta
  toObject := .ingress
  table s := s.ingresses
  setTable s t := { s with ingresses := t }

/-- The identity of an object inside its kind: its namespace and name. -/
def keyOf {α : Type} [Resource α] (obj : α) : NamespacedName :=
  ⟨(Resource.objectMeta obj).Namespace, (Resource.objectMeta obj).Name⟩

/-- The verbs of the store interface. -/
inductive Verb where
  | get
  | create
  | update
  | statusUpdate
deriving DecidableEq, Repr

/-- One call on the client: what was asked and the error it answered
(`none` for success). -/
structure Call where
  verb : Verb
  kind : Kind
  key : NamespacedName
  object : Option Object
  err : Option Error
deriving DecidableEq, Repr

/-- A logged call together with the content of the store when it was issued. -/
structure Event where
  call : Call
  before : Store

/-- The world a pass runs in: the store and the log of the calls issued so far. -/
structure World where
  store : Store
  log : List Event

/-- Append one call to the log, with the store as it is at that moment. -/
def World.record (w : World) (c : Call) : World :=
  { w with log := w.log ++ [{ call := c, before := w.store }] }

/-- The API client: `inject v k` is the failure (permission, conflict,
network, stale read, lost race) that a call of verb `v` on kind `k` meets
before it reaches the store, if any. -/
structure Client where
  inject : Verb → Kind → Option Error

/-- The table `t` with `key` bound to `o`. -/
def putAt {α : Type} (t : NamespacedName → Option α) (key : NamespacedName) (o : α) :
    NamespacedName → Option α :=
  fun k => if k = key then some o else t k

/-- The client's `Get(ctx, key, obj)`: the stored object, a not-found error, or
the injected failure. -/
def Client.Get (c : Client) (α : Type) [Resource α] (key : NamespacedName) (w : World) :
    Except Error α × World :=
  let k := Resource.kind α
  match c.inject .get k with
  | some e => (.error e, w.record ⟨.get, k, key, none, some e⟩)
  | none =>
    match Resource.table w.store (scopedKey k key) with
    | some o => (.ok o, w.record ⟨.get, k, key, none, none⟩)
    | none =>
      (.error (.status .NotFound "not found"),
        w.record ⟨.get, k, key, none, some (.status .NotFound "not found")⟩)

/-- The client's `Create(ctx, obj)`: stores the object under its own name and
namespace unless one is there already. -/
def Client.Create (c : Client) {α : Type} [Resource α] (obj : α) (w : World) :
    Option Error × World :=
  let k := Resource.kind α
  let key : NamespacedName := keyOf obj
  match c.inject .create k with
  | some e => (some e, w.record ⟨.create, k, key, some (Resource.toObject obj), some e⟩)
  | none =>
    match (Resource.table w.store (scopedKey k key) : Option α) with
    | some _ =>
      (some (.status .AlreadyExists "already exists"),
        w.record ⟨.create, k, key, some (Resource.toObject obj),
          some (.status .AlreadyExists "already exists")⟩)
    | none =>
      let w1 := w.record ⟨.create, k, key, some (Resource.toObject obj), none⟩
      (none, { w1 with
               store := Resource.setTable w.store
                 (putAt (Resource.table w.store) (scopedKey k key) obj) })

/-- The client's `Update(ctx, obj)`: replaces the stored object of the same name
and namespace. -/
def Client.Update (c : Client) {α : Type} [Resource α] (obj : α) (w : World) :
    Option Error × World :=
  let k := Resource.kind α
  let key : NamespacedName := keyOf obj
  match c.inject .update k with
  | some e => (some e, w.record ⟨.update, k, key, some (Resource.toObject obj), some e⟩)
  | none =>
    match (Resource.table w.store (scopedKey k key) : Option α) with
    | none =>
      (some (.status .NotFound "not found"),
        w.record ⟨.update, k, key, some (Resource.toObject obj),
          some (.status .NotFound "not found")⟩)
    | some _ =>
      let w1 := w.record ⟨.update, k, key, some (Resource.toObject obj), none⟩
      (none, { w1 with
               store := Resource.setTable w.store
                 (putAt (Resource.table w.store) (scopedKey k key) obj) })

/-- The client's `Status().Update(ctx, webapp)`: writes the status of the parent
onto the stored parent. -/
def Client.StatusUpdate (c : Client) (webapp : TestOperator) (w : World) : Option Error × World :=
  let key : NamespacedName := ⟨webapp.Namespace, webapp.Name⟩
  match c.inject .statusUpdate .TestOperator with
  | some e => (some e, w.record ⟨.statusUpdate, .TestOperator, key, some (.testOperator webapp), some e⟩)
  | none =>
    match w.store.testOperators key with
    | none =>
      (some (.status .NotFound "not found"),
        w.record ⟨.statusUpdate, .TestOperator, key, some (.testOperator webapp),
          some (.status .NotFound "not found")⟩)
    | some stored =>
      let w1 := w.record ⟨.statusUpdate, .TestOperator, key, some (.testOperator webapp), none⟩
      (none, { w1 with
               store := { w.store with
                 testOperators :=
                   putAt w.store.testOperators key { stored with Status := webapp.Status } } })

/-! ## Desired-state synthesizer (`yaml_builder.go`) -/

/-- The reconciler: the embedded client and the scheme. -/
structure TestOperatorReconciler where
  Client : Client
  Scheme : Scheme

/-- The string `appsv1.SchemeGroupVersion.String()`. -/
def appsv1GroupVersion : String := "apps/v1"

/-- The string `corev1.SchemeGroupVersion.String()`. -/
def corev1GroupVersion : String := "v1"

/-- The string `networkv1.SchemeGroupVersion.String()`. -/
def networkv1GroupVersion : String := "networking.k8s.io/v1"

/-- The string `certmanager.SchemeGroupVersion.String()`. -/
def certmanagerGroupVersion : String := "cert-manager.io/v1"

/-- The descriptor of the workload, stamped with the parent as controller. -/
def TestOperatorReconciler.createDeployment (r : TestOperatorReconciler) (webapp : TestOperator) :
    Deployment × Option Error :=
  let deployment : Deployment :=
    { APIVersion := appsv1GroupVersion
      Kind := "Deployment"
      Name := webapp.Name
      Namespace := webapp.Namespace
      Labels := [("webapp", webapp.Name)]
      Spec :=
        { Replicas := some webapp.Spec.Replicas
          Selector := some { MatchLabels := [("webapp", webapp.Name)] }
          Template :=
            { Name := webapp.Name
              Labels := [("webapp", webapp.Name)]
              Spec :=
                { Containers :=
                    [{ Name := "webapp-operator-test"
                       Image := webapp.Spec.Image
                       Ports :=
                         [{ Name := "http", ContainerPort := 80, Protocol := "TCP" },
                          { Name := "https", ContainerPort := 443, Protocol := "TCP" }] }] } } } }
  match SetControllerReference webapp deployment.toObjectMeta r.Scheme with
  | .error err => (deployment, some err)
  | .ok stamped => ({ deployment with toObjectMeta := stamped }, none)

/-- The descriptor of the service, stamped with the parent as controller. -/
def TestOperatorReconciler.createService (r : TestOperatorReconciler) (webapp : TestOperator) :
    Service × Option Error :=
  let service : Service :=
    { APIVersion := corev1GroupVersion
      Kind := "Service"
      Name := webapp.Name
      Namespace := webapp.Namespace
      Spec :=
        { Selector := [("webapp", webapp.Name)]
          Ports :=
            [{ Name := "https", Port := 443, Protocol := "TCP", TargetPort := .FromString "https" },
             { Name := "http", Port := 80, Protocol := "TCP", TargetPort := .FromString "http" }] } }
  match SetControllerReference webapp service.toObjectMeta r.Scheme with
  | .error err => (service, some err)
  | .ok stamped => ({ service with toObjectMeta := stamped }, none)

/-- The descriptor of the route, stamped with the parent as controller. -/
def TestOperatorReconciler.createIngress (r : TestOperatorReconciler) (webapp : TestOperator) :
    Ingress × Option Error :=
  let ingress : Ingress :=
    { APIVersion := networkv1GroupVersion
      Kind := "Ingress"
      Name := webapp.Name ++ "-ingress"
      Namespace := webapp.Namespace
      Annotations :=
        [("cert-manager.io/cluster-issuer", "letsencrypt-prod"),
         ("kubernetes.io/ingress.class", "nginx")]
      Spec :=
        { TLS := [{ Hosts := [webapp.Spec.Host], SecretName := "letsencrypt-prod" }]
          Rules :=
            [{ Host := webapp.Spec.Host
               HTTP := some
                 { Paths :=
                     [{ Path := "/"
                        PathType := some "Prefix"
                        Backend :=
                          { Service := some
                              { Name := webapp.Name, Port := { Number := 80 } } } }] } }] } }
  match SetControllerReference webapp ingress.toObjectMeta r.Scheme with
  | .error err => (ingress, some err)
  | .ok stamped => ({ ingress with toObjectMeta := stamped }, none)

/-- The descriptor of the issuer, stamped with the parent as controller. -/
def TestOperatorReconciler.createIssuer (r : TestOperatorReconciler) (webapp : TestOperator) :
    ClusterIssuer × Option Error :=
  let ingressClass := "nginx"
  let issuer : ClusterIssuer :=
    { APIVersion := certmanagerGroupVersion
      Kind := "ClusterIssuer"
      Name := "letsencrypt-prod"
      Namespace := webapp.Namespace
      Spec :=
        { ACME := some
            { Server := "https://acme-v02.api.letsencrypt.org/directory"
              Email := "kuveszkuvesz@gmail.com"
              PrivateKey := { Name := "letsencrypt-prod" }
              Solvers := [{ HTTP01 := some { Ingress := some { Class := some ingressClass } } }] } } }
  match SetControllerReference webapp issuer.toObjectMeta r.Scheme with
  | .error err => (issuer, some err)
  | .ok stamped => ({ issuer with toObjectMeta := stamped }, none)

/-- The descriptor of the certificate, stamped with the parent as controller. -/
def TestOperatorReconciler.createCert (r : TestOperatorReconciler) (webapp : TestOperator) :
    Certificate × Option Error :=
  let certificate : Certificate :=
    { APIVersion := certmanagerGroupVersion
      Kind := "Certificate"
      Name := webapp.Spec.Host
      Namespace := webapp.Namespace
      Spec :=
        { SecretName := webapp.Spec.Host ++ "-tls"
          DNSNames := [webapp.Spec.Host]
          IssuerRef := { Kind := "ClusterIssuer", Name := "letsencrypt-prod" } } }
  match SetControllerReference webapp certificate.toObjectMeta r.Scheme with
  | .error err => (certificate, some err)
  | .ok stamped => ({ certificate with toObjectMeta := stamped }, none)

/-! ## Convergence engine (`testoperator_controller.go`) -/

/-- The request handed to `Reconcile`: `ctrl.Request`. -/
structure Request where
  NamespacedName : NamespacedName
deriving DecidableEq, Repr

/-- The value `ctrl.Result`. -/
structure Result where
  Requeue : Bool := false
  RequeueAfter : Nat := 0
deriving DecidableEq, Repr

/-- Workload and service: `reconcileWebapp`. -/
def TestOperatorReconciler.reconcileWebapp (r : TestOperatorReconciler) (webapp : TestOperator)
    (w : World) : Exec (Option Error) × World :=
  match r.createDeployment webapp with
  | (_, some err) => (.ret (some err), w)
  | (deployment, none) =>
    match r.Client.Get Deployment ⟨deployment.Namespace, deployment.Name⟩ w with
    | (.error err, w1) =>
      if IsNotFound err then
        match r.Client.Create deployment w1 with
        | (some err, w2) => (.ret (some err), w2)
        | (none, w2) => (.ret none, w2)
      else (.ret (some err), w1)
    | (.ok foundDeployment, w1) =>
      match foundDeployment.Spec.Replicas with
      | none => (.panic, w1)
      | some foundReplicas =>
        if webapp.Spec.Replicas ≠ foundReplicas then
          let foundDeployment : Deployment :=
            { foundDeployment with
              Spec := { foundDeployment.Spec with Replicas := some webapp.Spec.Replicas } }
          match r.Client.Update foundDeployment w1 with
          | (some err, w2) => (.ret (some err), w2)
          | (none, w2) => (.ret none, w2)
        else
          match r.createService webapp with
          | (_, some err) => (.ret (some err), w1)
          | (service, none) =>
            match r.Client.Get Service ⟨service.Namespace, service.Name⟩ w1 with
            | (.error err, w2) =>
              if IsNotFound err then
                match r.Client.Create service w2 with
                | (some err, w3) => (.ret (some err), w3)
                | (none, w3) => (.ret none, w3)
              else (.ret (some err), w2)
            | (.ok _, w2) => (.ret none, w2)

/-- Issuer and certificate: `reconcileIngressCert`. -/
def TestOperatorReconciler.reconcileIngressCert (r : TestOperatorReconciler) (webapp : TestOperator)
    (w : World) : Exec (Option Error) × World :=
  match r.createIssuer webapp with
  | (_, some err) => (.ret (some err), w)
  | (issuer, none) =>
    match r.Client.Get ClusterIssuer ⟨issuer.Namespace, issuer.Name⟩ w with
    | (.error err, w1) =>
      if IsNotFound err then
        match r.Client.Create issuer w1 with
        | (some err, w2) => (.ret (some err), w2)
        | (none, w2) => (.ret none, w2)
      else (.ret (some err), w1)
    | (.ok _, w1) =>
      match r.createCert webapp with
      | (_, some err) => (.ret (some err), w1)
      | (cert, none) =>
        match r.Client.Get Certificate ⟨cert.Namespace, cert.Name⟩ w1 with
        | (.error err, w2) =>
          if IsNotFound err then
            match r.Client.Create cert w2 with
            | (some err, w3) => (.ret (some err), w3)
            | (none, w3) => (.ret none, w3)
          else (.ret (some err), w2)
        | (.ok _, w2) => (.ret none, w2)

/-- Certificate chain, then the route: `reconcileWebappIngress`. -/
def TestOperatorReconciler.reconcileWebappIngress (r : TestOperatorReconciler)
    (webapp : TestOperator) (w : World) : Exec (Option Error) × World :=
  match r.reconcileIngressCert webapp w with
  | (.panic, w1) => (.panic, w1)
  | (.ret (some err), w1) => (.ret (some err), w1)
  | (.ret none, w1) =>
    match r.createIngress webapp with
    | (_, some err) => (.ret (some err), w1)
    | (ingress, none) =>
      match r.Client.Get Ingress ⟨ingress.Namespace, ingress.Name⟩ w1 with
      | (.error err, w2) =>
        if IsNotFound err then
          match r.Client.Create ingress w2 with
          | (some err, w3) => (.ret (some err), w3)
          | (none, w3) => (.ret none, w3)
        else (.ret (some err), w2)
      | (.ok _, w2) => (.ret none, w2)

/-- One pass of the engine: `Reconcile` from the fetch of the parent on, under a
context that carries a logger.  The logger only writes messages, so it leaves no
trace here; `ReconcileWithContext` puts the lookup of the logger in front. -/
def TestOperatorReconciler.Reconcile (r : TestOperatorReconciler) (req : Request) (w : World) :
    Exec (Result × Option Error) × World :=
  match r.Client.Get TestOperator req.NamespacedName w with
  | (.error err, w1) =>
    if IsNotFound err then (.ret ({}, none), w1) else (.ret ({}, some err), w1)
  | (.ok webapp, w1) =>
    match r.Client.StatusUpdate webapp w1 with
    | (_, w2) =>
      match r.reconcileWebapp webapp w2 with
      | (.panic, w3) => (.panic, w3)
      | (.ret (some err), w3) => (.ret ({}, some err), w3)
      | (.ret none, w3) =>
        match r.reconcileWebappIngress webapp w3 with
        | (.panic, w4) => (.panic, w4)
        | (.ret (some err), w4) => (.ret ({}, some err), w4)
        | (.ret none, w4) => (.ret ({}, none), w4)

/-- The per-kind step every helper repeats: give up on a stamping error, fetch
by derived identity, create when the fetch says not-found.  `Sum.inl out` means
the enclosing helper returns `out`; `Sum.inr found` means it goes on with the
object that was found. -/
def ensureStep (c : Client) {α : Type} [Resource α] (desc : α × Option Error) (w : World) :
    (Exec (Option Error) ⊕ α) × World :=
  match desc with
  | (_, some err) => (.inl (.ret (some err)), w)
  | (obj, none) =>
    match c.Get α (keyOf obj) w with
    | (.error err, w1) =>
      if IsNotFound err then
        match c.Create obj w1 with
        | (some err, w2) => (.inl (.ret (some err)), w2)
        | (none, w2) => (.inl (.ret none), w2)
      else (.inl (.ret (some err)), w1)
    | (.ok found, w1) => (.inr found, w1)

/-- The tracked-field step of `reconcileWebapp`: dereference the replica count
of the found workload, and patch it when it differs from the spec. -/
def replicaStep (c : Client) (webapp : TestOperator) (foundDeployment : Deployment) (w : World) :
    (Exec (Option Error) ⊕ Unit) × World :=
  match foundDeployment.Spec.Replicas with
  | none => (.inl .panic, w)
  | some foundReplicas =>
    if webapp.Spec.Replicas ≠ foundReplicas then
      match c.Update
        ({ foundDeployment with
           Spec := { foundDeployment.Spec with Replicas := some webapp.Spec.Replicas } } :
          Deployment) w with
      | (some err, w2) => (.inl (.ret (some err)), w2)
      | (none, w2) => (.inl (.ret none), w2)
    else (.inr (), w)

/-- The events a pass of `Reconcile` appends to the log. -/
def passLog (r : TestOperatorReconciler) (req : Request) (w : World) : List Event :=
  (r.Reconcile req w).2.log.drop w.log.length

/-- A call that writes a child object: a Create or an Update. -/
def Call.isWrite (c : Call) : Bool :=
  c.verb = .create || c.verb = .update

/-- The write calls among a list of events. -/
def writes (evs : List Event) : List Event :=
  evs.filter (fun ev => ev.call.isWrite)

/-- The write calls among a list of events that are on one of the kinds `ks`. -/
def writesOn (ks : List Kind) (evs : List Event) : List Event :=
  evs.filter (fun ev => ev.call.isWrite && decide (ev.call.kind ∈ ks))

/-- The logged form of a `Get` of type `α` at `key`, answered with `err`. -/
def getEvent (α : Type) [Resource α] (key : NamespacedName) (err : Option Error) (s : Store) :
    Event :=
  ⟨⟨.get, Resource.kind α, key, none, err⟩, s⟩

/-- The logged form of a `Create` of `obj`, answered with `err`. -/
def createEvent {α : Type} [Resource α] (obj : α) (err : Option Error) (s : Store) : Event :=
  ⟨⟨.create, Resource.kind α, keyOf obj, some (Resource.toObject obj), err⟩, s⟩

/-- The logged form of an `Update` of `obj`, answered with `err`. -/
def updateEvent {α : Type} [Resource α] (obj : α) (err : Option Error) (s : Store) : Event :=
  ⟨⟨.update, Resource.kind α, keyOf obj, some (Resource.toObject obj), err⟩, s⟩

/-- The store `s` with `obj` bound at its scoped identity. -/
def Store.put {α : Type} [Resource α] (s : Store) (obj : α) : Store :=
  Resource.setTable s
    (putAt (Resource.table s) (scopedKey (Resource.kind α) (keyOf obj)) obj)

/-- The object of type `α` the store holds at the scoped identity of `key`. -/
def Store.lookup (s : Store) (α : Type) [Resource α] (key : NamespacedName) : Option α :=
  Resource.table s (scopedKey (Resource.kind α) key)

/-- The five ways one per-kind step can go, with the world each leaves behind. -/
inductive EnsureSpec (c : Client) {α : Type} [Resource α] (desc : α × Option Error) (w : World) :
    (Exec (Option Error) ⊕ α) × World → Prop where
  | stampErr (err : Error) (hd : desc.2 = some err) :
      EnsureSpec c desc w (.inl (.ret (some err)), w)
  | fetchErr (e : Error) (hd : desc.2 = none) (hnf : IsNotFound e = false)
      (hinj : c.inject .get (Resource.kind α) = some e) :
      EnsureSpec c desc w
        (.inl (.ret (some e)),
          ⟨w.store, w.log ++ [getEvent α (keyOf desc.1) (some e) w.store]⟩)
  | createErr (e0 e : Error) (hd : desc.2 = none) (hnf : IsNotFound e0 = true)
      (hget : c.inject .get (Resource.kind α) = some e0 ∨
        (c.inject .get (Resource.kind α) = none ∧ w.store.lookup α (keyOf desc.1) = none))
      (hwhy : c.inject .create (Resource.kind α) = some e ∨
        (w.store.lookup α (keyOf desc.1)).isSome = true) :
      EnsureSpec c desc w
        (.inl (.ret (some e)),
          ⟨w.store, w.log ++ [getEvent α (keyOf desc.1) (some e0) w.store,
            createEvent desc.1 (some e) w.store]⟩)
  | created (e0 : Error) (hd : desc.2 = none) (hnf : IsNotFound e0 = true)
      (hinj : c.inject .create (Resource.kind α) = none)
      (habs : w.store.lookup α (keyOf desc.1) = none) :
      EnsureSpec c desc w
        (.inl (.ret none),
          ⟨w.store.put desc.1, w.log ++ [getEvent α (keyOf desc.1) (some e0) w.store,
            createEvent desc.1 none w.store]⟩)
  | found (o : α) (hd : desc.2 = none) (hinj : c.inject .get (Resource.kind α) = none)
      (hpres : w.store.lookup α (keyOf desc.1) = some o) :
      EnsureSpec c desc w
        (.inr o, ⟨w.store, w.log ++ [getEvent α (keyOf desc.1) none w.store]⟩)

/-- The workload `d` with its replica count set to `n`, as `reconcileWebapp` patches it. -/
def withReplicas (d : Deployment) (n : Int) : Deployment :=
  { d with Spec := { d.Spec with Replicas := some n } }

/-- The four ways the tracked-field step can go. -/
inductive ReplicaSpec (c : Client) (webapp : TestOperator) (d : Deployment) (w : World) :
    (Exec (Option Error) ⊕ Unit) × World → Prop where
  | nilDeref (hnil : d.Spec.Replicas = none) : ReplicaSpec c webapp d w (.inl .panic, w)
  | same (hsame : d.Spec.Replicas = some webapp.Spec.Replicas) :
      ReplicaSpec c webapp d w (.inr (), w)
  | updateErr (n : Int) (e : Error) (hn : d.Spec.Replicas = some n) (hne : webapp.Spec.Replicas ≠ n)
      (hwhy : c.inject .update .Deployment = some e ∨
        w.store.lookup Deployment (keyOf d) = none) :
      ReplicaSpec c webapp d w
        (.inl (.ret (some e)),
          ⟨w.store, w.log ++ [updateEvent (withReplicas d webapp.Spec.Replicas) (some e) w.store]⟩)
  | updated (n : Int) (hn : d.Spec.Replicas = some n) (hne : webapp.Spec.Replicas ≠ n)
      (hinj : c.inject .update .Deployment = none)
      (hpres : (w.store.lookup Deployment (keyOf d)).isSome = true) :
      ReplicaSpec c webapp d w
        (.inl (.ret none),
          ⟨w.store.put (withReplicas d webapp.Spec.Replicas),
            w.log ++ [updateEvent (withReplicas d webapp.Spec.Replicas) none w.store]⟩)

/-- The logged form of a `Status().Update` of `webapp`, answered with `err`. -/
def statusEvent (webapp : TestOperator) (err : Option Error) (s : Store) : Event :=
  ⟨⟨.statusUpdate, .TestOperator, keyOf webapp, some (.testOperator webapp), err⟩, s⟩

/-- The part of `Reconcile` that follows the status write: the two helpers in
turn, the second only when the first returned nil. -/
def TestOperatorReconciler.converge (r : TestOperatorReconciler) (webapp : TestOperator)
    (w : World) : Exec (Result × Option Error) × World :=
  match r.reconcileWebapp webapp w with
  | (.panic, w3) => (.panic, w3)
  | (.ret (some err), w3) => (.ret ({}, some err), w3)
  | (.ret none, w3) =>
    match r.reconcileWebappIngress webapp w3 with
    | (.panic, w4) => (.panic, w4)
    | (.ret (some err), w4) => (.ret ({}, some err), w4)
    | (.ret none, w4) => (.ret ({}, none), w4)

/-- The two ways the load of the parent can go: it fails with `e`, and the pass
ends there, or it succeeds, the status write is attempted (answering `serr`),
and the engine runs on the loaded parent. -/
inductive PassSpec (r : TestOperatorReconciler) (req : Request) (w : World) :
    Exec (Result × Option Error) × World → Prop where
  | loadErr (e : Error)
      (hwhy : r.Client.inject .get .TestOperator = some e ∨
        (w.store.lookup TestOperator req.NamespacedName = none ∧ IsNotFound e = true)) :
      PassSpec r req w
        (.ret ({}, if IsNotFound e then none else some e),
          ⟨w.store, w.log ++ [getEvent TestOperator req.NamespacedName (some e) w.store]⟩)
  | loaded (webapp : TestOperator) (serr : Option Error)
      (hinj : r.Client.inject .get .TestOperator = none)
      (hpres : w.store.lookup TestOperator req.NamespacedName = some webapp)
      (hserr : r.Client.inject .statusUpdate .TestOperator = none → w.store.lookup TestOperator (keyOf webapp) ≠ none → serr = none) :
      PassSpec r req w
        (r.converge webapp
          ⟨w.store, w.log ++ [getEvent TestOperator req.NamespacedName none w.store,
            statusEvent webapp serr w.store]⟩)

/-- The outcome of a helper as the outcome of `Reconcile`: an error is paired
with the empty `ctrl.Result`. -/
def liftOut : Exec (Option Error) → Exec (Result × Option Error)
  | .panic => .panic
  | .ret err => .ret ({}, err)

/-- The ways `reconcileWebapp` can go, step by step. -/
inductive WebappSpec (r : TestOperatorReconciler) (webapp : TestOperator) (w : World) :
    Exec (Option Error) × World → Prop where
  | atWorkload (out : Exec (Option Error)) (w1 : World)
      (h1 : EnsureSpec r.Client (r.createDeployment webapp) w (.inl out, w1)) :
      WebappSpec r webapp w (out, w1)
  | atReplicas (d : Deployment) (w1 : World) (out : Exec (Option Error)) (w2 : World)
      (h1 : EnsureSpec r.Client (r.createDeployment webapp) w (.inr d, w1))
      (h2 : ReplicaSpec r.Client webapp d w1 (.inl out, w2)) :
      WebappSpec r webapp w (out, w2)
  | atService (d : Deployment) (w1 w2 : World) (out : Exec (Option Error)) (w3 : World)
      (h1 : EnsureSpec r.Client (r.createDeployment webapp) w (.inr d, w1))
      (h2 : ReplicaSpec r.Client webapp d w1 (.inr (), w2))
      (h3 : EnsureSpec r.Client (r.createService webapp) w2 (.inl out, w3)) :
      WebappSpec r webapp w (out, w3)
  | serviceFound (d : Deployment) (w1 w2 : World) (svc : Service) (w3 : World)
      (h1 : EnsureSpec r.Client (r.createDeployment webapp) w (.inr d, w1))
      (h2 : ReplicaSpec r.Client webapp d w1 (.inr (), w2))
      (h3 : EnsureSpec r.Client (r.createService webapp) w2 (.inr svc, w3)) :
      WebappSpec r webapp w (.ret none, w3)

/-- The ways `reconcileIngressCert` can go, step by step. -/
inductive CertSpec (r : TestOperatorReconciler) (webapp : TestOperator) (w : World) :
    Exec (Option Error) × World → Prop where
  | atIssuer (out : Exec (Option Error)) (w1 : World)
      (h1 : EnsureSpec r.Client (r.createIssuer webapp) w (.inl out, w1)) :
      CertSpec r webapp w (out, w1)
  | atCert (i : ClusterIssuer) (w1 : World) (out : Exec (Option Error)) (w2 : World)
      (h1 : EnsureSpec r.Client (r.createIssuer webapp) w (.inr i, w1))
      (h2 : EnsureSpec r.Client (r.createCert webapp) w1 (.inl out, w2)) :
      CertSpec r webapp w (out, w2)
  | certFound (i : ClusterIssuer) (w1 : World) (crt : Certificate) (w2 : World)
      (h1 : EnsureSpec r.Client (r.createIssuer webapp) w (.inr i, w1))
      (h2 : EnsureSpec r.Client (r.createCert webapp) w1 (.inr crt, w2)) :
      CertSpec r webapp w (.ret none, w2)

/-- The ways `reconcileWebappIngress` can go: the certificate chain ends it, or
the route step follows. -/
inductive RouteSpec (r : TestOperatorReconciler) (webapp : TestOperator) (w : World) :
    Exec (Option Error) × World → Prop where
  | certStop (out : Exec (Option Error)) (w1 : World)
      (h1 : CertSpec r webapp w (out, w1)) (hstop : out ≠ .ret none) :
      RouteSpec r webapp w (out, w1)
  | atRoute (w1 : World) (out : Exec (Option Error)) (w2 : World)
      (h1 : CertSpec r webapp w (.ret none, w1))
      (h2 : EnsureSpec r.Client (r.createIngress webapp) w1 (.inl out, w2)) :
      RouteSpec r webapp w (out, w2)
  | routeFound (w1 : World) (ing : Ingress) (w2 : World)
      (h1 : CertSpec r webapp w (.ret none, w1))
      (h2 : EnsureSpec r.Client (r.createIngress webapp) w1 (.inr ing, w2)) :
      RouteSpec r webapp w (.ret none, w2)

/-- The ways the engine can go on a loaded parent: `reconcileWebapp` ends the
pass, or `reconcileWebappIngress` follows it. -/
inductive ConvergeSpec (r : TestOperatorReconciler) (webapp : TestOperator) (w : World) :
    Exec (Result × Option Error) × World → Prop where
  | webappStop (out : Exec (Option Error)) (w1 : World)
      (h1 : WebappSpec r webapp w (out, w1)) (hstop : out ≠ .ret none) :
      ConvergeSpec r webapp w (liftOut out, w1)
  | thenRoute (w1 : World) (out : Exec (Option Error)) (w2 : World)
      (h1 : WebappSpec r webapp w (.ret none, w1))
      (h2 : RouteSpec r webapp w1 (out, w2)) :
      ConvergeSpec r webapp w (liftOut out, w2)

/-- The events `w1` has logged beyond those of `w`. -/
def newEvents (w w1 : World) : List Event :=
  w1.log.drop w.log.length

/-- The log of `w1` continues the log of `w`. -/
def Extends (w w1 : World) : Prop :=
  ∃ evs, w1.log = w.log ++ evs

/-- The error every stamping of a descriptor of `webapp` meets, if any: the failed
lookup of the parent's type metadata in the scheme. -/
def stampErr (r : TestOperatorReconciler) (webapp : TestOperator) : Option Error :=
  match r.Scheme.ObjectKinds webapp with
  | .error err => some err
  | .ok _ => none

/-- The container images of a workload, in order. -/
def Deployment.images (d : Deployment) : List String :=
  d.Spec.Template.Spec.Containers.map (fun c => c.Image)

/-- What one stage of a pass contributes to the log: calls on the kinds `k1` and
`k2` only, at most one write among them, and no call on `k2` once `k1` was written. -/
def StageLog (k1 k2 : Kind) (evs : List Event) : Prop :=
  (∀ ev ∈ evs, ev.call.kind = k1 ∨ ev.call.kind = k2) ∧
  (writes evs).length ≤ 1 ∧
  ((∃ ev ∈ evs, ev.call.isWrite = true ∧ ev.call.kind = k1) → ∀ ev ∈ evs, ev.call.kind ≠ k2)

/-- What the route step contributes to the log: calls on the route only, at most
one write among them. -/
def RouteLog (evs : List Event) : Prop :=
  (∀ ev ∈ evs, ev.call.kind = .Ingress) ∧ (writes evs).length ≤ 1

/-- The log of the engine on a loaded parent, stage by stage. -/
def EngineLog (evs : List Event) : Prop :=
  ∃ a b c, evs = a ++ (b ++ c) ∧ StageLog .Deployment .Service a ∧
    StageLog .ClusterIssuer .Certificate b ∧ RouteLog c

/-- The log of a pass: nothing but the failed load of the parent, or the load, the
status write and the log of the engine. -/
def PassLogShape (evs : List Event) : Prop :=
  (∃ ev, evs = [ev] ∧ ev.call.verb = .get ∧ ev.call.kind = .TestOperator) ∨
  (∃ ev1 ev2 rest, evs = ev1 :: ev2 :: rest ∧
    ev1.call.verb = .get ∧ ev1.call.kind = .TestOperator ∧
    ev2.call.verb = .statusUpdate ∧ ev2.call.kind = .TestOperator ∧ EngineLog rest)

/-- The certificate chain as the route step finds it: the issuer is stored, and so
is the certificate unless this very pass created the issuer. -/
def ChainReady (r : TestOperatorReconciler) (webapp : TestOperator) (evs : List Event)
    (s : Store) : Prop :=
  (s.lookup ClusterIssuer (keyOf (r.createIssuer webapp).1)).isSome = true ∧
  ((∀ ev ∈ evs, ¬(ev.call.verb = .create ∧ ev.call.kind = .ClusterIssuer)) →
    (s.lookup Certificate (keyOf (r.createCert webapp).1)).isSome = true)

/-- A failed fetch in `evs` is its last event and its error is what `out` returns. -/
def FetchErrorEnds (evs : List Event) (out : Exec (Option Error)) : Prop :=
  ∀ (pre post : List Event) (ev : Event) (e : Error), evs = pre ++ ev :: post →
    ev.call.verb = .get → ev.call.err = some e → IsNotFound e = false →
    out = .ret (some e) ∧ post = []

/-- No fetch in `evs` failed with anything but not-found. -/
def NoFetchError (evs : List Event) : Prop :=
  ∀ ev ∈ evs, ∀ e, ev.call.verb = .get → ev.call.err = some e → IsNotFound e = true

/-- The world `w` with the events `l` put before its log. -/
def World.shift (l : List Event) (w : World) : World :=
  ⟨w.store, l ++ w.log⟩

/-- The controller-owner reference to `webapp`, given its type metadata. -/
def controllerRef (gvk : GroupVersionKind) (webapp : TestOperator) : OwnerReference :=
  { APIVersion := gvk.apiVersion, Kind := gvk.Kind, Name := webapp.Name, UID := webapp.UID,
    Controller := some true, BlockOwnerDeletion := some true }

/-- What a write call of a pass on `webapp` is handed: a Create gets a descriptor
that carries the controller reference to `webapp` and no other owner reference; an
Update gets the workload stored at the derived identity with its replica count
replaced, whatever owner references that workload has. -/
def WriteCarries (r : TestOperatorReconciler) (webapp : TestOperator) (ev : Event) : Prop :=
  (ev.call.verb = .create →
    ∃ gvk o, r.Scheme.ObjectKinds webapp = .ok gvk ∧ ev.call.object = some o ∧
      o.objectMeta.OwnerReferences = [controllerRef gvk webapp]) ∧
  (ev.call.verb = .update →
    ∃ d o, ev.before.lookup Deployment ⟨webapp.Namespace, webapp.Name⟩ = some d ∧
      ev.call.object = some o ∧ o = .deployment (withReplicas d webapp.Spec.Replicas) ∧
      o.objectMeta.OwnerReferences = d.OwnerReferences)

/-- A descriptor of `webapp` that was stamped carries exactly the controller
reference to `webapp`. -/
def Stamped (r : TestOperatorReconciler) (webapp : TestOperator) {α : Type} [Resource α]
    (desc : α × Option Error) : Prop :=
  desc.2 = none →
    ∃ gvk, r.Scheme.ObjectKinds webapp = .ok gvk ∧
      (Resource.toObject desc.1).objectMeta.OwnerReferences = [controllerRef gvk webapp]

/-- Every call on a certificate in `evs` is a fetch at `key` that succeeded. -/
def CertificateFound (key : NamespacedName) (evs : List Event) : Prop :=
  ∀ ev ∈ evs, ev.call.kind = .Certificate →
    ev.call.verb = .get ∧ ev.call.key = key ∧ ev.call.err = none

/-! ## Concrete reconcilers, parents and worlds -/

/-- A scheme in which the parent type is registered. -/
def schemeOK : Scheme := ⟨fun _ => .ok ⟨"webapp.kuvesz.sch", "v1", "TestOperator"⟩⟩

/-- A scheme in which the parent type is not registered. -/
def brokenScheme : Scheme :=
  ⟨fun _ => .error (.other "no kind is registered for the type v1.TestOperator")⟩

/-- A parent asking for two replicas of `img:1` at `example.com`. -/
def demoParent : TestOperator :=
  { Name := "app", Namespace := "ns", UID := "u1",
    Spec := { Replicas := 2, Host := "example.com", Image := "img:1" } }

/-- The request for `demoParent`. -/
def demoRequest : Request := ⟨⟨"ns", "app"⟩⟩

/-- The request for `otherParent`. -/
def otherRequest : Request := ⟨⟨"other", "shop"⟩⟩

/-- The store that holds nothing. -/
def emptyStore : Store :=
  ⟨fun _ => none, fun _ => none, fun _ => none, fun _ => none, fun _ => none, fun _ => none⟩

/-- A world that holds `demoParent` and no child. -/
def parentOnly : World := ⟨emptyStore.put demoParent, []⟩

/-- A reconciler whose client never fails and whose scheme knows the parent. -/
def plainReconciler : TestOperatorReconciler := ⟨⟨fun _ _ => none⟩, schemeOK⟩

/-- A reconciler whose client never fails and whose scheme does not know the parent. -/
def unregisteredReconciler : TestOperatorReconciler := ⟨⟨fun _ _ => none⟩, brokenScheme⟩

/-- A reconciler whose reads of workloads are stale: they answer not-found. -/
def staleReconciler : TestOperatorReconciler :=
  ⟨⟨fun v k =>
      if v = .get ∧ k = .Deployment then some (.status .NotFound "not found") else none⟩,
    schemeOK⟩

/-- A reconciler that is forbidden to read services. -/
def forbiddenReconciler : TestOperatorReconciler :=
  ⟨⟨fun v k => if v = .get ∧ k = .Service then some (.status .Forbidden "forbidden") else none⟩,
    schemeOK⟩

/-- The world after the first pass on `parentOnly`. -/
def startedWorld : World := (plainReconciler.Reconcile demoRequest parentOnly).2

/-- The world after two passes on `parentOnly`: all five children are stored. -/
def convergedWorld : World :=
  (plainReconciler.Reconcile demoRequest (plainReconciler.Reconcile demoRequest parentOnly).2).2

/-- The parent `demoParent` after its spec was changed to five replicas of `img:2`. -/
def driftedParent : TestOperator :=
  { demoParent with Spec := { Replicas := 5, Host := "example.com", Image := "img:2" } }

/-- The converged world in which the parent was replaced by `driftedParent`. -/
def driftedWorld : World := ⟨convergedWorld.store.put driftedParent, []⟩

/-- The converged world without its route. -/
def routelessWorld : World := ⟨{ convergedWorld.store with ingresses := fun _ => none }, []⟩

/-- A world in which the workload of `demoParent` is stored already. -/
def raceWorld : World :=
  ⟨(emptyStore.put demoParent).put (plainReconciler.createDeployment demoParent).1, []⟩

/-- A workload at the identity derived from `demoParent` that the engine did not
build: one replica, no owner reference. -/
def foreignWorkload : Deployment :=
  { Name := "app", Namespace := "ns", Spec := { Replicas := some 1 } }

/-- A world that holds `demoParent` and `foreignWorkload`. -/
def adoptedWorld : World := ⟨(emptyStore.put demoParent).put foreignWorkload, []⟩

/-- A reconciler whose status writes meet a conflict. -/
def conflictReconciler : TestOperatorReconciler :=
  ⟨⟨fun v _ => if v = .statusUpdate then some (.status .Conflict "conflict") else none⟩,
    schemeOK⟩

/-- A parent in the namespace of `demoParent` that declares the same host. -/
def twinParent : TestOperator :=
  { Name := "twin", Namespace := "ns", UID := "u3",
    Spec := { Replicas := 1, Host := "example.com", Image := "img:1" } }

/-- The request for `twinParent`. -/
def twinRequest : Request := ⟨⟨"ns", "twin"⟩⟩

/-- The converged world of `demoParent` after `twinParent` was added. -/
def twinWorld : World := ⟨convergedWorld.store.put twinParent, []⟩

/-- A parent in another namespace that declares the host of `demoParent`. -/
def cousinParent : TestOperator :=
  { Name := "blog", Namespace := "other", UID := "u4",
    Spec := { Replicas := 1, Host := "example.com", Image := "img:1" } }

/-- The request for `cousinParent`. -/
def cousinRequest : Request := ⟨⟨"other", "blog"⟩⟩

/-- The converged world of `demoParent` after `cousinParent` was added. -/
def cousinWorld : World := ⟨convergedWorld.store.put cousinParent, []⟩

theorem reconcileIngressCert_eq (r : TestOperatorReconciler) (webapp : TestOperator) (w : World) :
    r.reconcileIngressCert webapp w =
      match ensureStep r.Client (r.createIssuer webapp) w with
      | (.inl out, w1) => (out, w1)
      | (.inr _, w1) =>
        match ensureStep r.Client (r.createCert webapp) w1 with
        | (.inl out, w2) => (out, w2)
        | (.inr _, w2) => (.ret none, w2) := by
  unfold TestOperatorReconciler.reconcileIngressCert ensureStep keyOf
  simp only [Resource.objectMeta]
  repeat' split
  all_goals simp_all

theorem reconcileWebapp_eq (r : TestOperatorReconciler) (webapp : TestOperator) (w : World) :
    r.reconcileWebapp webapp w =
      match ensureStep r.Client (r.createDeployment webapp) w with
      | (.inl out, w1) => (out, w1)
      | (.inr foundDeployment, w1) =>
        match replicaStep r.Client webapp foundDeployment w1 with
        | (.inl out, w2) => (out, w2)
        | (.inr _, w2) =>
          match ensureStep r.Client (r.createService webapp) w2 with
          | (.inl out, w3) => (out, w3)
          | (.inr _, w3) => (.ret none, w3) := by
  unfold TestOperatorReconciler.reconcileWebapp ensureStep replicaStep keyOf
  simp only [Resource.objectMeta]
  repeat' split
  all_goals simp_all

theorem reconcileWebappIngress_eq (r : TestOperatorReconciler) (webapp : TestOperator) (w : World) :
    r.reconcileWebappIngress webapp w =
      match r.reconcileIngressCert webapp w with
      | (.panic, w1) => (.panic, w1)
      | (.ret (some err), w1) => (.ret (some err), w1)
      | (.ret none, w1) =>
        match ensureStep r.Client (r.createIngress webapp) w1 with
        | (.inl out, w2) => (out, w2)
        | (.inr _, w2) => (.ret none, w2) := by
  unfold TestOperatorReconciler.reconcileWebappIngress ensureStep keyOf
  simp only [Resource.objectMeta]
  repeat' split
  all_goals simp_all

theorem ensureStep_spec (c : Client) {α : Type} [Resource α] (desc : α × Option Error) (w : World) :
    EnsureSpec c desc w (ensureStep c desc w) := by
  obtain ⟨obj, err⟩ := desc
  cases err with
  | some err => exact .stampErr err rfl
  | none =>
    have hcreate : ∀ e0 : Error, IsNotFound e0 = true →
        (c.inject .get (Resource.kind α) = some e0 ∨
          (c.inject .get (Resource.kind α) = none ∧ w.store.lookup α (keyOf obj) = none)) →
        EnsureSpec c (obj, none) w
          (match c.Create obj
              ⟨w.store, w.log ++ [getEvent α (keyOf obj) (some e0) w.store]⟩ with
            | (some err, w2) => (.inl (.ret (some err)), w2)
            | (none, w2) => (.inl (.ret none), w2)) := by
      intro e0 he0 hget
      unfold Client.Create
      cases hc : c.inject .create (Resource.kind α) with
      | some e =>
        simpa [World.record, hc] using
          @EnsureSpec.createErr c α _ (obj, none) w e0 e rfl he0 hget (Or.inl hc)
      | none =>
        cases hl : w.store.lookup α (keyOf obj) with
        | some o =>
          have hl2 : (Resource.table w.store (scopedKey (Resource.kind α) (keyOf obj)) : Option α)
              = some o := hl
          simpa [World.record, hc, hl2] using
            @EnsureSpec.createErr c α _ (obj, none) w e0
              (.status .AlreadyExists "already exists") rfl he0 hget (Or.inr (by simp [hl]))
        | none =>
          have hl2 : (Resource.table w.store (scopedKey (Resource.kind α) (keyOf obj)) : Option α)
              = none := hl
          simpa [World.record, hc, hl2, Store.put] using
            @EnsureSpec.created c α _ (obj, none) w e0 rfl he0 hc hl
    unfold ensureStep Client.Get
    cases hg : c.inject .get (Resource.kind α) with
    | some e =>
      cases hnf : IsNotFound e with
      | true => simpa [World.record, hg, hnf, getEvent] using hcreate e hnf (Or.inl hg)
      | false => simpa [World.record, hg, hnf] using EnsureSpec.fetchErr e rfl hnf hg
    | none =>
      cases hl : w.store.lookup α (keyOf obj) with
      | some o =>
        have hl2 : (Resource.table w.store (scopedKey (Resource.kind α) (keyOf obj)) : Option α)
            = some o := hl
        simpa [World.record, hg, hl2] using
          @EnsureSpec.found c α _ (obj, none) w o rfl hg hl
      | none =>
        have hl2 : (Resource.table w.store (scopedKey (Resource.kind α) (keyOf obj)) : Option α)
            = none := hl
        simpa [World.record, hg, hl2, IsNotFound, getEvent] using
          hcreate (.status .NotFound "not found") rfl (Or.inr ⟨hg, hl⟩)

theorem replicaStep_spec (c : Client) (webapp : TestOperator) (d : Deployment) (w : World) :
    ReplicaSpec c webapp d w (replicaStep c webapp d w) := by
  unfold replicaStep
  cases hr : d.Spec.Replicas with
  | none => simpa using ReplicaSpec.nilDeref hr
  | some n =>
    by_cases hne : webapp.Spec.Replicas = n
    · subst hne
      simpa using ReplicaSpec.same hr
    · unfold Client.Update
      cases hc : c.inject .update (Resource.kind Deployment) with
      | some e =>
        simpa [World.record, hc, hne, withReplicas, updateEvent, keyOf] using
          @ReplicaSpec.updateErr c webapp d w n e hr hne (Or.inl hc)
      | none =>
        cases hl : w.store.lookup Deployment (keyOf d) with
        | none =>
          have hl2 : (Resource.table w.store (scopedKey (Resource.kind Deployment) (keyOf d)) :
              Option Deployment) = none := hl
          have := @ReplicaSpec.updateErr c webapp d w n (.status .NotFound "not found") hr hne (Or.inr hl)
          simp [keyOf, Resource.objectMeta] at hl2
          simpa [World.record, hc, hne, withReplicas, updateEvent, keyOf, hl2, Resource.objectMeta] using this
        | some o =>
          have hl2 : (Resource.table w.store (scopedKey (Resource.kind Deployment) (keyOf d)) :
              Option Deployment) = some o := hl
          have := @ReplicaSpec.updated c webapp d w n hr hne hc (by simp [hl])
          simp [keyOf, Resource.objectMeta] at hl2
          simpa [World.record, hc, hne, withReplicas, updateEvent, keyOf, hl2, Resource.objectMeta, Store.put] using this

theorem statusUpdate_store (c : Client) (webapp : TestOperator) (w : World) :
    (c.StatusUpdate webapp w).2.store = w.store := by
  unfold Client.StatusUpdate
  cases hi : c.inject .statusUpdate .TestOperator with
  | some e => simp [World.record]
  | none =>
    cases hl : w.store.testOperators (keyOf webapp) with
    | none =>
      have hl2 : w.store.testOperators ⟨webapp.Namespace, webapp.Name⟩ = none := hl
      simp [World.record, hl2]
    | some stored =>
      have hl2 : w.store.testOperators ⟨webapp.Namespace, webapp.Name⟩ = some stored := hl
      simp only [World.record, hl2]
      have : putAt w.store.testOperators ⟨webapp.Namespace, webapp.Name⟩
          ({ stored with Status := webapp.Status } : TestOperator) = w.store.testOperators := by
        funext k
        unfold putAt
        by_cases hk : k = ⟨webapp.Namespace, webapp.Name⟩
        · subst hk
          simp [hl2]
        · simp [hk]
      rw [this]

theorem statusUpdate_spec (c : Client) (webapp : TestOperator) (w : World) :
    ∃ serr, (c.StatusUpdate webapp w).2 = ⟨w.store, w.log ++ [statusEvent webapp serr w.store]⟩ ∧
      (c.inject .statusUpdate .TestOperator = none →
        w.store.lookup TestOperator (keyOf webapp) ≠ none → serr = none) := by
  have hs := statusUpdate_store c webapp w
  revert hs
  unfold Client.StatusUpdate
  cases hi : c.inject .statusUpdate .TestOperator with
  | some e =>
    intro _
    exact ⟨some e, by simp [World.record, statusEvent, keyOf, Resource.objectMeta], by simp [hi]⟩
  | none =>
    cases hl : w.store.testOperators (keyOf webapp) with
    | none =>
      have hl2 : w.store.testOperators ⟨webapp.Namespace, webapp.Name⟩ = none := hl
      intro _
      refine ⟨some (.status .NotFound "not found"), by simp [World.record, statusEvent, keyOf, Resource.objectMeta, hl2], ?_⟩
      intro _ h
      exact absurd hl h
    | some stored =>
      have hl2 : w.store.testOperators ⟨webapp.Namespace, webapp.Name⟩ = some stored := hl
      simp only [World.record, hl2]
      intro hs
      refine ⟨none, ?_, fun _ _ => rfl⟩
      simp [statusEvent, keyOf, Resource.objectMeta, hs]

theorem Reconcile_spec (r : TestOperatorReconciler) (req : Request) (w : World) :
    PassSpec r req w (r.Reconcile req w) := by
  unfold TestOperatorReconciler.Reconcile Client.Get
  cases hi : r.Client.inject .get (Resource.kind TestOperator) with
  | some e =>
    have := @PassSpec.loadErr r req w e (Or.inl hi)
    cases hnf : IsNotFound e <;> simpa [World.record, hnf, hi, getEvent] using this
  | none =>
    cases hl : w.store.lookup TestOperator req.NamespacedName with
    | none =>
      have hl2 : (Resource.table w.store (scopedKey (Resource.kind TestOperator) req.NamespacedName) :
          Option TestOperator) = none := hl
      have := @PassSpec.loadErr r req w (.status .NotFound "not found")
        (Or.inr ⟨hl, rfl⟩)
      simpa [World.record, hl2, hi, IsNotFound, getEvent] using this
    | some webapp =>
      have hl2 : (Resource.table w.store (scopedKey (Resource.kind TestOperator) req.NamespacedName) :
          Option TestOperator) = some webapp := hl
      simp only [hi, hl2]
      obtain ⟨serr, hs, hserr⟩ := statusUpdate_spec r.Client webapp
        (w.record ⟨.get, Resource.kind TestOperator, req.NamespacedName, none, none⟩)
      have := @PassSpec.loaded r req w webapp serr hi hl hserr
      generalize r.Client.StatusUpdate webapp
        (w.record ⟨.get, Resource.kind TestOperator, req.NamespacedName, none, none⟩) = su at hs
      obtain ⟨e1, w2⟩ := su
      simp only [] at hs
      subst hs
      simpa [World.record, TestOperatorReconciler.converge, getEvent] using this

theorem reconcileWebapp_spec (r : TestOperatorReconciler) (webapp : TestOperator) (w : World) :
    WebappSpec r webapp w (r.reconcileWebapp webapp w) := by
  rw [reconcileWebapp_eq]
  have h1 := ensureStep_spec r.Client (r.createDeployment webapp) w
  rcases hres1 : ensureStep r.Client (r.createDeployment webapp) w with ⟨out | d, w1⟩
  · rw [hres1] at h1
    exact .atWorkload out w1 h1
  · rw [hres1] at h1
    have h2 := replicaStep_spec r.Client webapp d w1
    rcases hres2 : replicaStep r.Client webapp d w1 with ⟨out | u, w2⟩
    · rw [hres2] at h2
      simp only [hres2]
      exact .atReplicas d w1 out w2 h1 h2
    · rw [hres2] at h2
      have h3 := ensureStep_spec r.Client (r.createService webapp) w2
      rcases hres3 : ensureStep r.Client (r.createService webapp) w2 with ⟨out | svc, w3⟩
      · rw [hres3] at h3
        simp only [hres2, hres3]
        exact .atService d w1 w2 out w3 h1 h2 h3
      · rw [hres3] at h3
        simp only [hres2, hres3]
        exact .serviceFound d w1 w2 svc w3 h1 h2 h3

theorem reconcileIngressCert_spec (r : TestOperatorReconciler) (webapp : TestOperator) (w : World) :
    CertSpec r webapp w (r.reconcileIngressCert webapp w) := by
  rw [reconcileIngressCert_eq]
  have h1 := ensureStep_spec r.Client (r.createIssuer webapp) w
  rcases hres1 : ensureStep r.Client (r.createIssuer webapp) w with ⟨out | i, w1⟩
  · rw [hres1] at h1
    exact .atIssuer out w1 h1
  · rw [hres1] at h1
    have h2 := ensureStep_spec r.Client (r.createCert webapp) w1
    rcases hres2 : ensureStep r.Client (r.createCert webapp) w1 with ⟨out | crt, w2⟩
    · rw [hres2] at h2
      simp only [hres2]
      exact .atCert i w1 out w2 h1 h2
    · rw [hres2] at h2
      simp only [hres2]
      exact .certFound i w1 crt w2 h1 h2

theorem reconcileWebappIngress_spec (r : TestOperatorReconciler) (webapp : TestOperator)
    (w : World) : RouteSpec r webapp w (r.reconcileWebappIngress webapp w) := by
  rw [reconcileWebappIngress_eq]
  have h1 := reconcileIngressCert_spec r webapp w
  rcases hres1 : r.reconcileIngressCert webapp w with ⟨out, w1⟩
  rw [hres1] at h1
  rcases out with (_ | err) | _
  · have h2 := ensureStep_spec r.Client (r.createIngress webapp) w1
    rcases hres2 : ensureStep r.Client (r.createIngress webapp) w1 with ⟨out | ing, w2⟩
    · rw [hres2] at h2
      simp only [hres2]
      exact .atRoute w1 out w2 h1 h2
    · rw [hres2] at h2
      simp only [hres2]
      exact .routeFound w1 ing w2 h1 h2
  · exact .certStop _ w1 h1 (by simp)
  · exact .certStop _ w1 h1 (by simp)

theorem converge_spec (r : TestOperatorReconciler) (webapp : TestOperator) (w : World) :
    ConvergeSpec r webapp w (r.converge webapp w) := by
  unfold TestOperatorReconciler.converge
  have h1 := reconcileWebapp_spec r webapp w
  rcases hres1 : r.reconcileWebapp webapp w with ⟨out, w1⟩
  rw [hres1] at h1
  rcases out with (_ | err) | _
  · have h2 := reconcileWebappIngress_spec r webapp w1
    rcases hres2 : r.reconcileWebappIngress webapp w1 with ⟨out, w2⟩
    rw [hres2] at h2
    have := ConvergeSpec.thenRoute w1 out w2 h1 h2
    rcases out with (_ | err) | _ <;> simpa [liftOut, hres2] using this
  · simpa [liftOut] using ConvergeSpec.webappStop _ w1 h1 (by simp)
  · simpa [liftOut] using ConvergeSpec.webappStop _ w1 h1 (by simp)

/-! ### The log only grows -/

theorem Extends.refl (w : World) : Extends w w := ⟨[], by simp⟩

theorem Extends.extends_trans {w w1 w2 : World} (h1 : Extends w w1) (h2 : Extends w1 w2) :
    Extends w w2 := by
  obtain ⟨a, ha⟩ := h1
  obtain ⟨b, hb⟩ := h2
  exact ⟨a ++ b, by rw [hb, ha, List.append_assoc]⟩

theorem Extends.log_eq {w w1 : World} (h : Extends w w1) :
    w1.log = w.log ++ newEvents w w1 := by
  obtain ⟨a, ha⟩ := h
  simp [newEvents, ha]

theorem newEvents_trans {w w1 w2 : World} (h1 : Extends w w1) (h2 : Extends w1 w2) :
    newEvents w w2 = newEvents w w1 ++ newEvents w1 w2 := by
  obtain ⟨a, ha⟩ := h1
  obtain ⟨b, hb⟩ := h2
  simp [newEvents, ha, hb]

theorem newEvents_self (w : World) : newEvents w w = [] := by
  simp [newEvents]

theorem EnsureSpec.ensure_extends {c : Client} {α : Type} [Resource α] {desc : α × Option Error}
    {w : World} {res : (Exec (Option Error) ⊕ α) × World} (h : EnsureSpec c desc w res) :
    Extends w res.2 := by
  cases h <;> first | exact Extends.refl w | exact ⟨_, rfl⟩

theorem ReplicaSpec.replica_extends {c : Client} {webapp : TestOperator} {d : Deployment}
    {w : World} {res : (Exec (Option Error) ⊕ Unit) × World} (h : ReplicaSpec c webapp d w res) :
    Extends w res.2 := by
  cases h
  · exact Extends.refl w
  · exact Extends.refl w
  · exact ⟨_, rfl⟩
  · exact ⟨_, rfl⟩

theorem WebappSpec.webapp_extends {r : TestOperatorReconciler} {webapp : TestOperator}
    {w : World} {res : Exec (Option Error) × World} (h : WebappSpec r webapp w res) :
    Extends w res.2 := by
  cases h with
  | atWorkload _ _ h1 => exact h1.ensure_extends
  | atReplicas _ _ _ _ h1 h2 => exact h1.ensure_extends.extends_trans h2.replica_extends
  | atService _ _ _ _ _ h1 h2 h3 => exact (h1.ensure_extends.extends_trans h2.replica_extends).extends_trans h3.ensure_extends
  | serviceFound _ _ _ _ _ h1 h2 h3 => exact (h1.ensure_extends.extends_trans h2.replica_extends).extends_trans h3.ensure_extends

theorem CertSpec.cert_extends {r : TestOperatorReconciler} {webapp : TestOperator}
    {w : World} {res : Exec (Option Error) × World} (h : CertSpec r webapp w res) :
    Extends w res.2 := by
  cases h with
  | atIssuer _ _ h1 => exact h1.ensure_extends
  | atCert _ _ _ _ h1 h2 => exact h1.ensure_extends.extends_trans h2.ensure_extends
  | certFound _ _ _ _ h1 h2 => exact h1.ensure_extends.extends_trans h2.ensure_extends

theorem RouteSpec.route_extends {r : TestOperatorReconciler} {webapp : TestOperator}
    {w : World} {res : Exec (Option Error) × World} (h : RouteSpec r webapp w res) :
    Extends w res.2 := by
  cases h with
  | certStop _ _ h1 _ => exact h1.cert_extends
  | atRoute _ _ _ h1 h2 => exact h1.cert_extends.extends_trans h2.ensure_extends
  | routeFound _ _ _ h1 h2 => exact h1.cert_extends.extends_trans h2.ensure_extends

theorem ConvergeSpec.engine_extends {r : TestOperatorReconciler} {webapp : TestOperator}
    {w : World} {res : Exec (Result × Option Error) × World} (h : ConvergeSpec r webapp w res) :
    Extends w res.2 := by
  cases h with
  | webappStop _ _ h1 _ => exact h1.webapp_extends
  | thenRoute _ _ _ h1 h2 => exact h1.webapp_extends.extends_trans h2.route_extends

/-! ### Lifting a property of the steps to the engine -/

theorem converge_log_property (Φ : List Event → Exec (Option Error) → Prop)
    (Quiet : List Event → Prop)
    (hcomp : ∀ a b out, Quiet a → Φ b out → Φ (a ++ b) out)
    (hcont : ∀ a, Φ a (.ret none) → Quiet a)
    (hquiet : ∀ a b, Quiet a → Quiet b → Φ (a ++ b) (.ret none))
    (hstep : ∀ (c : Client) (α : Type) [Resource α] (desc : α × Option Error) (w : World)
      (out : Exec (Option Error)) (w1 : World),
      EnsureSpec c desc w (.inl out, w1) → Φ (newEvents w w1) out)
    (hstepq : ∀ (c : Client) (α : Type) [Resource α] (desc : α × Option Error) (w : World)
      (o : α) (w1 : World),
      EnsureSpec c desc w (.inr o, w1) → Quiet (newEvents w w1))
    (hrep : ∀ (c : Client) (webapp : TestOperator) (d : Deployment) (w : World)
      (out : Exec (Option Error)) (w1 : World),
      ReplicaSpec c webapp d w (.inl out, w1) → Φ (newEvents w w1) out)
    (hrepq : ∀ (c : Client) (webapp : TestOperator) (d : Deployment) (w : World) (w1 : World),
      ReplicaSpec c webapp d w (.inr (), w1) → Quiet (newEvents w w1))
    (r : TestOperatorReconciler) (webapp : TestOperator) (w : World)
    (res : Exec (Result × Option Error) × World) (h : ConvergeSpec r webapp w res) :
    ∃ out, res.1 = liftOut out ∧ Φ (newEvents w res.2) out := by
  have hweb : ∀ (w : World) (res : Exec (Option Error) × World),
      WebappSpec r webapp w res → Φ (newEvents w res.2) res.1 := by
    intro w res h
    cases h with
    | atWorkload out w1 h1 => exact hstep _ _ _ _ _ _ h1
    | atReplicas d w1 out w2 h1 h2 =>
      rw [newEvents_trans h1.ensure_extends h2.replica_extends]
      exact hcomp _ _ _ (hstepq _ _ _ _ _ _ h1) (hrep _ _ _ _ _ _ h2)
    | atService d w1 w2 out w3 h1 h2 h3 =>
      rw [newEvents_trans (h1.ensure_extends.extends_trans h2.replica_extends) h3.ensure_extends,
        newEvents_trans h1.ensure_extends h2.replica_extends]
      exact hcomp _ _ _ (hcont _ (hquiet _ _ (hstepq _ _ _ _ _ _ h1) (hrepq _ _ _ _ _ h2)))
        (hstep _ _ _ _ _ _ h3)
    | serviceFound d w1 w2 svc w3 h1 h2 h3 =>
      rw [newEvents_trans (h1.ensure_extends.extends_trans h2.replica_extends) h3.ensure_extends,
        newEvents_trans h1.ensure_extends h2.replica_extends]
      exact hquiet _ _ (hcont _ (hquiet _ _ (hstepq _ _ _ _ _ _ h1) (hrepq _ _ _ _ _ h2)))
        (hstepq _ _ _ _ _ _ h3)
  have hcert : ∀ (w : World) (res : Exec (Option Error) × World),
      CertSpec r webapp w res → Φ (newEvents w res.2) res.1 := by
    intro w res h
    cases h with
    | atIssuer out w1 h1 => exact hstep _ _ _ _ _ _ h1
    | atCert i w1 out w2 h1 h2 =>
      rw [newEvents_trans h1.ensure_extends h2.ensure_extends]
      exact hcomp _ _ _ (hstepq _ _ _ _ _ _ h1) (hstep _ _ _ _ _ _ h2)
    | certFound i w1 crt w2 h1 h2 =>
      rw [newEvents_trans h1.ensure_extends h2.ensure_extends]
      exact hquiet _ _ (hstepq _ _ _ _ _ _ h1) (hstepq _ _ _ _ _ _ h2)
  have hroute : ∀ (w : World) (res : Exec (Option Error) × World),
      RouteSpec r webapp w res → Φ (newEvents w res.2) res.1 := by
    intro w res h
    cases h with
    | certStop out w1 h1 _ => exact hcert _ _ h1
    | atRoute w1 out w2 h1 h2 =>
      rw [newEvents_trans h1.cert_extends h2.ensure_extends]
      exact hcomp _ _ _ (hcont _ (hcert _ _ h1)) (hstep _ _ _ _ _ _ h2)
    | routeFound w1 ing w2 h1 h2 =>
      rw [newEvents_trans h1.cert_extends h2.ensure_extends]
      exact hquiet _ _ (hcont _ (hcert _ _ h1)) (hstepq _ _ _ _ _ _ h2)
  cases h with
  | webappStop out w1 h1 _ => exact ⟨out, rfl, hweb _ _ h1⟩
  | thenRoute w1 out w2 h1 h2 =>
    refine ⟨out, rfl, ?_⟩
    rw [newEvents_trans h1.webapp_extends h2.route_extends]
    exact hcomp _ _ _ (hcont _ (hweb _ _ h1)) (hroute _ _ h2)

theorem pass_log_property (Φ : List Event → Exec (Option Error) → Prop)
    (Quiet : List Event → Prop)
    (hcomp : ∀ a b out, Quiet a → Φ b out → Φ (a ++ b) out)
    (hcont : ∀ a, Φ a (.ret none) → Quiet a)
    (hquiet : ∀ a b, Quiet a → Quiet b → Φ (a ++ b) (.ret none))
    (hstep : ∀ (c : Client) (α : Type) [Resource α] (desc : α × Option Error) (w : World)
      (out : Exec (Option Error)) (w1 : World),
      EnsureSpec c desc w (.inl out, w1) → Φ (newEvents w w1) out)
    (hstepq : ∀ (c : Client) (α : Type) [Resource α] (desc : α × Option Error) (w : World)
      (o : α) (w1 : World),
      EnsureSpec c desc w (.inr o, w1) → Quiet (newEvents w w1))
    (hrep : ∀ (c : Client) (webapp : TestOperator) (d : Deployment) (w : World)
      (out : Exec (Option Error)) (w1 : World),
      ReplicaSpec c webapp d w (.inl out, w1) → Φ (newEvents w w1) out)
    (hrepq : ∀ (c : Client) (webapp : TestOperator) (d : Deployment) (w : World) (w1 : World),
      ReplicaSpec c webapp d w (.inr (), w1) → Quiet (newEvents w w1))
    (hload : ∀ (key : NamespacedName) (e : Error) (s : Store),
      Φ [getEvent TestOperator key (some e) s]
        (.ret (if IsNotFound e then none else some e)))
    (hpre : ∀ (key : NamespacedName) (webapp : TestOperator) (serr : Option Error) (s : Store),
      Quiet [getEvent TestOperator key none s, statusEvent webapp serr s])
    (r : TestOperatorReconciler) (req : Request) (w : World) :
    ∃ out, (r.Reconcile req w).1 = liftOut out ∧ Φ (passLog r req w) out := by
  unfold passLog
  have hp := Reconcile_spec r req w
  generalize r.Reconcile req w = res at hp ⊢
  cases hp with
  | loadErr e hwhy =>
    refine ⟨.ret (if IsNotFound e then none else some e), ?_, ?_⟩
    · simp [liftOut]
    · simpa using hload req.NamespacedName e w.store
  | loaded webapp serr hinj hpres hserr =>
    have hc := converge_spec r webapp
      ⟨w.store, w.log ++ [getEvent TestOperator req.NamespacedName none w.store,
        statusEvent webapp serr w.store]⟩
    obtain ⟨out, hout, hΦ⟩ := converge_log_property Φ Quiet hcomp hcont hquiet hstep hstepq
      hrep hrepq r webapp _ _ hc
    refine ⟨out, hout, ?_⟩
    have hext : Extends w ⟨w.store, w.log ++ [getEvent TestOperator req.NamespacedName none w.store,
        statusEvent webapp serr w.store]⟩ := ⟨_, rfl⟩
    have := newEvents_trans hext hc.engine_extends
    unfold newEvents at this hΦ
    rw [this]
    refine hcomp _ _ _ ?_ hΦ
    simpa using hpre req.NamespacedName webapp serr w.store

/-! ### C1: writes per stage -/

theorem WebappSpec.webapp_stageLog {r : TestOperatorReconciler} {webapp : TestOperator}
    {w : World} {res : Exec (Option Error) × World} (h : WebappSpec r webapp w res) :
    StageLog .Deployment .Service (newEvents w res.2) := by
  cases h with
  | atWorkload _ _ h1 =>
    cases h1 <;>
      simp [StageLog, newEvents, writes, Call.isWrite, getEvent, createEvent, Resource.kind]
  | atReplicas _ _ _ _ h1 h2 =>
    cases h1
    cases h2 <;>
      simp [StageLog, newEvents, writes, Call.isWrite, getEvent, updateEvent, Resource.kind]
  | atService _ _ _ _ _ h1 h2 h3 =>
    cases h1
    cases h2
    cases h3 <;>
      simp [StageLog, newEvents, writes, Call.isWrite, getEvent, createEvent, Resource.kind]
  | serviceFound _ _ _ _ _ h1 h2 h3 =>
    cases h1
    cases h2
    cases h3
    simp [StageLog, newEvents, writes, Call.isWrite, getEvent, Resource.kind]

theorem CertSpec.cert_stageLog {r : TestOperatorReconciler} {webapp : TestOperator}
    {w : World} {res : Exec (Option Error) × World} (h : CertSpec r webapp w res) :
    StageLog .ClusterIssuer .Certificate (newEvents w res.2) := by
  cases h with
  | atIssuer _ _ h1 =>
    cases h1 <;>
      simp [StageLog, newEvents, writes, Call.isWrite, getEvent, createEvent, Resource.kind]
  | atCert _ _ _ _ h1 h2 =>
    cases h1
    cases h2 <;>
      simp [StageLog, newEvents, writes, Call.isWrite, getEvent, createEvent, Resource.kind]
  | certFound _ _ _ _ h1 h2 =>
    cases h1
    cases h2
    simp [StageLog, newEvents, writes, Call.isWrite, getEvent, Resource.kind]

theorem EnsureSpec.routeLog {c : Client} {desc : Ingress × Option Error}
    {w : World} {res : (Exec (Option Error) ⊕ Ingress) × World} (h : EnsureSpec c desc w res) :
    RouteLog (newEvents w res.2) := by
  cases h <;>
    simp [RouteLog, newEvents, writes, Call.isWrite, getEvent, createEvent, Resource.kind]

theorem StageLog.stage_nil (k1 k2 : Kind) : StageLog k1 k2 [] := by
  simp [StageLog, writes]

theorem RouteLog.route_nil : RouteLog [] := by
  simp [RouteLog, writes]

theorem RouteSpec.route_engineLog {r : TestOperatorReconciler} {webapp : TestOperator}
    {w : World} {res : Exec (Option Error) × World} (h : RouteSpec r webapp w res) :
    ∃ b c, newEvents w res.2 = b ++ c ∧ StageLog .ClusterIssuer .Certificate b ∧ RouteLog c := by
  cases h with
  | certStop _ _ h1 _ => exact ⟨_, [], by simp, h1.cert_stageLog, RouteLog.route_nil⟩
  | atRoute _ _ _ h1 h2 =>
    exact ⟨_, _, newEvents_trans h1.cert_extends h2.ensure_extends, h1.cert_stageLog, h2.routeLog⟩
  | routeFound _ _ _ h1 h2 =>
    exact ⟨_, _, newEvents_trans h1.cert_extends h2.ensure_extends, h1.cert_stageLog, h2.routeLog⟩

theorem ConvergeSpec.engine_engineLog {r : TestOperatorReconciler} {webapp : TestOperator}
    {w : World} {res : Exec (Result × Option Error) × World} (h : ConvergeSpec r webapp w res) :
    EngineLog (newEvents w res.2) := by
  cases h with
  | webappStop _ _ h1 _ =>
    exact ⟨_, [], [], by simp, h1.webapp_stageLog, StageLog.stage_nil _ _, RouteLog.route_nil⟩
  | thenRoute _ _ _ h1 h2 =>
    obtain ⟨b, c, hbc, hb, hc⟩ := h2.route_engineLog
    exact ⟨_, b, c, by rw [newEvents_trans h1.webapp_extends h2.route_extends, hbc], h1.webapp_stageLog, hb, hc⟩

theorem passLog_shape (r : TestOperatorReconciler) (req : Request) (w : World) :
    PassLogShape (passLog r req w) := by
  unfold passLog
  have hp := Reconcile_spec r req w
  generalize r.Reconcile req w = res at hp ⊢
  cases hp with
  | loadErr e hwhy =>
    left
    exact ⟨getEvent TestOperator req.NamespacedName (some e) w.store, by simp, rfl, rfl⟩
  | loaded webapp serr hinj hpres hserr =>
    right
    have hc := converge_spec r webapp
      ⟨w.store, w.log ++ [getEvent TestOperator req.NamespacedName none w.store,
        statusEvent webapp serr w.store]⟩
    have hext : Extends w ⟨w.store, w.log ++ [getEvent TestOperator req.NamespacedName none w.store,
        statusEvent webapp serr w.store]⟩ := ⟨_, rfl⟩
    have h := newEvents_trans hext hc.engine_extends
    have hlog := hc.engine_engineLog
    unfold newEvents at h hlog
    refine ⟨getEvent TestOperator req.NamespacedName none w.store,
      statusEvent webapp serr w.store, _, ?_, rfl, rfl, rfl, rfl, hlog⟩
    rw [h]
    simp

theorem writesOn_append (ks : List Kind) (a b : List Event) :
    writesOn ks (a ++ b) = writesOn ks a ++ writesOn ks b := by
  simp [writesOn]

theorem writesOn_eq_nil (ks : List Kind) (a : List Event)
    (h : ∀ ev ∈ a, ev.call.kind ∉ ks) : writesOn ks a = [] := by
  simp only [writesOn, List.filter_eq_nil_iff]
  intro ev hev
  simp [h ev hev]

theorem writesOn_length_le (ks : List Kind) (a : List Event) :
    (writesOn ks a).length ≤ (writes a).length := by
  induction a with
  | nil => simp [writesOn, writes]
  | cons ev rest ih =>
    simp only [writesOn, writes, List.filter_cons] at ih ⊢
    cases hw : ev.call.isWrite <;> cases hk : decide (ev.call.kind ∈ ks) <;> simp [ih]
    omega

theorem writes_append (a b : List Event) : writes (a ++ b) = writes a ++ writes b := by
  simp [writes]

theorem writesOn_cons_of_not_write (ks : List Kind) (ev : Event) (a : List Event)
    (h : ev.call.isWrite = false) : writesOn ks (ev :: a) = writesOn ks a := by
  simp [writesOn, h]

theorem writes_cons_of_not_write (ev : Event) (a : List Event)
    (h : ev.call.isWrite = false) : writes (ev :: a) = writes a := by
  simp [writes, h]

theorem exists_write_of_writesOn_ne_nil (k : Kind) (a : List Event) (h : writesOn [k] a ≠ []) :
    ∃ ev ∈ a, ev.call.isWrite = true ∧ ev.call.kind = k := by
  obtain ⟨ev, hev⟩ := List.exists_mem_of_ne_nil _ h
  simp only [writesOn, List.mem_filter, Bool.and_eq_true, decide_eq_true_eq,
    List.mem_singleton] at hev
  exact ⟨ev, hev.1, hev.2.1, hev.2.2⟩

/-- C1 (amended): in every pass at most one Create or Update is issued on the
workload and service together, at most one on the issuer and certificate
together, and at most one on the route, so at most three in all; once the
workload was written no call touches the service in that pass, and once the
issuer was written no call touches the certificate. -/
theorem writes_per_stage (r : TestOperatorReconciler) (req : Request) (w : World) :
    (writesOn [.Deployment, .Service] (passLog r req w)).length ≤ 1 ∧
    (writesOn [.ClusterIssuer, .Certificate] (passLog r req w)).length ≤ 1 ∧
    (writesOn [.Ingress] (passLog r req w)).length ≤ 1 ∧
    (writes (passLog r req w)).length ≤ 3 ∧
    (writesOn [.Deployment] (passLog r req w) ≠ [] →
      ∀ ev ∈ passLog r req w, ev.call.kind ≠ .Service) ∧
    (writesOn [.ClusterIssuer] (passLog r req w) ≠ [] →
      ∀ ev ∈ passLog r req w, ev.call.kind ≠ .Certificate) := by
  rcases passLog_shape r req w with ⟨ev, hevs, hv, hk⟩ | ⟨ev1, ev2, rest, hevs, hv1, hk1, hv2, hk2, a, b, c, hrest, ha, hb, hc⟩
  · rw [hevs]
    simp [writesOn, writes, Call.isWrite, hv, hk]
  · rw [hevs, hrest]
    obtain ⟨hak, haw, hae⟩ := ha
    obtain ⟨hbk, hbw, hbe⟩ := hb
    obtain ⟨hck, hcw⟩ := hc
    have hw1 : ev1.call.isWrite = false := by simp [Call.isWrite, hv1]
    have hw2 : ev2.call.isWrite = false := by simp [Call.isWrite, hv2]
    have haDS : ∀ ks, writesOn ks a = [] ∨ (writesOn ks a).length ≤ 1 := fun ks =>
      Or.inr (le_trans (writesOn_length_le ks a) haw)
    have key : ∀ ks, writesOn ks (ev1 :: ev2 :: (a ++ (b ++ c))) =
        writesOn ks a ++ (writesOn ks b ++ writesOn ks c) := by
      intro ks
      rw [writesOn_cons_of_not_write ks ev1 _ hw1, writesOn_cons_of_not_write ks ev2 _ hw2,
        writesOn_append, writesOn_append]
    have hbn : ∀ ks, Kind.ClusterIssuer ∉ ks → Kind.Certificate ∉ ks → writesOn ks b = [] := by
      intro ks h1 h2
      apply writesOn_eq_nil
      intro ev hev
      rcases hbk ev hev with h | h <;> rw [h] <;> assumption
    have han : ∀ ks, Kind.Deployment ∉ ks → Kind.Service ∉ ks → writesOn ks a = [] := by
      intro ks h1 h2
      apply writesOn_eq_nil
      intro ev hev
      rcases hak ev hev with h | h <;> rw [h] <;> assumption
    have hcn : ∀ ks, Kind.Ingress ∉ ks → writesOn ks c = [] := by
      intro ks h1
      apply writesOn_eq_nil
      intro ev hev
      rw [hck ev hev]
      exact h1
    refine ⟨?_, ?_, ?_, ?_, ?_, ?_⟩
    · rw [key, hbn _ (by decide) (by decide), hcn _ (by decide)]
      simpa using le_trans (writesOn_length_le _ a) haw
    · rw [key, han _ (by decide) (by decide), hcn _ (by decide)]
      simpa using le_trans (writesOn_length_le _ b) hbw
    · rw [key, han _ (by decide) (by decide), hbn _ (by decide) (by decide)]
      simpa using le_trans (writesOn_length_le _ c) hcw
    · rw [writes_cons_of_not_write ev1 _ hw1, writes_cons_of_not_write ev2 _ hw2,
        writes_append, writes_append]
      simp only [List.length_append]
      omega
    · intro hne
      rw [key, hbn _ (by decide) (by decide), hcn _ (by decide)] at hne
      simp only [List.append_nil] at hne
      have hno := hae (exists_write_of_writesOn_ne_nil _ a hne)
      intro ev hev
      simp only [List.mem_cons, List.mem_append] at hev
      rcases hev with h | h | h | h | h
      · rw [h, hk1]; decide
      · rw [h, hk2]; decide
      · exact hno ev h
      · rcases hbk ev h with h' | h' <;> rw [h'] <;> decide
      · rw [hck ev h]; decide
    · intro hne
      rw [key, han _ (by decide) (by decide), hcn _ (by decide)] at hne
      simp only [List.append_nil, List.nil_append] at hne
      have hno := hbe (exists_write_of_writesOn_ne_nil _ b hne)
      intro ev hev
      simp only [List.mem_cons, List.mem_append] at hev
      rcases hev with h | h | h | h | h
      · rw [h, hk1]; decide
      · rw [h, hk2]; decide
      · rcases hak ev h with h' | h' <;> rw [h'] <;> decide
      · exact hno ev h
      · rw [hck ev h]; decide

/-- Counterexample to C1 as stated: the first pass on a store that holds only the
parent returns success after three Create calls, on the workload, the issuer and
the route. -/
theorem three_writes_in_one_pass :
    (plainReconciler.Reconcile demoRequest parentOnly).1 = .ret ({}, none) ∧
    (writes (passLog plainReconciler demoRequest parentOnly)).map
        (fun ev => (ev.call.verb, ev.call.kind, ev.call.err)) =
      [(.create, .Deployment, none), (.create, .ClusterIssuer, none),
       (.create, .Ingress, none)] := by
  constructor <;> decide

/-! ### C2: what the store holds when the route is created -/

theorem keyOf_createIssuer (r : TestOperatorReconciler) (webapp : TestOperator) :
    keyOf (r.createIssuer webapp).1 = ⟨webapp.Namespace, "letsencrypt-prod"⟩ := by
  unfold TestOperatorReconciler.createIssuer SetControllerReference
  cases r.Scheme.ObjectKinds webapp <;> rfl

theorem keyOf_createCert (r : TestOperatorReconciler) (webapp : TestOperator) :
    keyOf (r.createCert webapp).1 = ⟨webapp.Namespace, webapp.Spec.Host⟩ := by
  unfold TestOperatorReconciler.createCert SetControllerReference
  cases r.Scheme.ObjectKinds webapp <;> rfl

theorem keyOf_createDeployment (r : TestOperatorReconciler) (webapp : TestOperator) :
    keyOf (r.createDeployment webapp).1 = ⟨webapp.Namespace, webapp.Name⟩ := by
  unfold TestOperatorReconciler.createDeployment SetControllerReference
  cases r.Scheme.ObjectKinds webapp <;> rfl

theorem CertSpec.cert_chainReady {r : TestOperatorReconciler} {webapp : TestOperator}
    {w w1 : World} (h : CertSpec r webapp w (.ret none, w1)) :
    ChainReady r webapp (newEvents w w1) w1.store := by
  cases h with
  | atIssuer _ _ h1 =>
    cases h1 with
    | created e0 hd hnf hinj habs =>
      constructor
      · simp [Store.lookup, Store.put, Resource.table, Resource.setTable, putAt]
      · intro hno
        exfalso
        apply hno (createEvent (r.createIssuer webapp).1 none w.store)
        · simp [newEvents]
        · exact ⟨rfl, rfl⟩
  | atCert i _ _ _ h1 h2 =>
    cases h1 with
    | found o hd hinj hpres =>
      cases h2 with
      | created e0 hd2 hnf hinj2 habs =>
        constructor
        · simpa [Store.lookup, Store.put, Resource.table, Resource.setTable] using
            congrArg Option.isSome hpres
        · intro _
          simp [Store.lookup, Store.put, Resource.table, Resource.setTable, putAt]
  | certFound i _ crt _ h1 h2 =>
    cases h1 with
    | found o hd hinj hpres =>
      cases h2 with
      | found o2 hd2 hinj2 hpres2 =>
        exact ⟨by simpa using congrArg Option.isSome hpres,
          fun _ => by simpa using congrArg Option.isSome hpres2⟩

theorem ChainReady.mono {r : TestOperatorReconciler} {webapp : TestOperator}
    {evs evs1 : List Event} {s : Store} (hsub : ∀ ev ∈ evs, ev ∈ evs1)
    (h : ChainReady r webapp evs s) : ChainReady r webapp evs1 s :=
  ⟨h.1, fun hno => h.2 (fun ev hev => hno ev (hsub ev hev))⟩

theorem RouteSpec.route_chainReady {r : TestOperatorReconciler} {webapp : TestOperator}
    {w : World} {res : Exec (Option Error) × World} (h : RouteSpec r webapp w res) :
    ∀ ev ∈ newEvents w res.2, ev.call.verb = .create → ev.call.kind = .Ingress →
      ChainReady r webapp (newEvents w res.2) ev.before := by
  have hcert : ∀ {w1 : World} {out : Exec (Option Error)}, CertSpec r webapp w (out, w1) →
      ∀ ev ∈ newEvents w w1, ev.call.kind ≠ .Ingress := by
    intro w1 out h1 ev hev
    rcases h1.cert_stageLog.1 ev hev with h | h <;> rw [h] <;> decide
  cases h with
  | certStop _ _ h1 _ =>
    intro ev hev _ hk
    exact absurd hk (hcert h1 ev hev)
  | atRoute w1 out w2 h1 h2 =>
    intro ev hev hv hk
    rw [newEvents_trans h1.cert_extends h2.ensure_extends] at hev ⊢
    have hready := h1.cert_chainReady
    rcases List.mem_append.1 hev with hin | hin
    · exact absurd hk (hcert h1 ev hin)
    · have hbefore : ev.before = w1.store := by
        cases h2 <;> simp [newEvents] at hin
        all_goals first
          | (rcases hin with h | h <;> rw [h] <;> rfl)
          | (rw [hin]; rfl)
      rw [hbefore]
      exact hready.mono (fun ev hev => List.mem_append.2 (Or.inl hev))
  | routeFound w1 ing w2 h1 h2 =>
    intro ev hev hv hk
    rw [newEvents_trans h1.cert_extends h2.ensure_extends] at hev
    rcases List.mem_append.1 hev with hin | hin
    · exact absurd hk (hcert h1 ev hin)
    · cases h2
      simp [newEvents] at hin
      rw [hin] at hv
      cases hv

theorem ConvergeSpec.engine_chainReady {r : TestOperatorReconciler} {webapp : TestOperator}
    {w : World} {res : Exec (Result × Option Error) × World} (h : ConvergeSpec r webapp w res) :
    ∀ ev ∈ newEvents w res.2, ev.call.verb = .create → ev.call.kind = .Ingress →
      ChainReady r webapp (newEvents w res.2) ev.before := by
  have hweb : ∀ {w1 : World} {out : Exec (Option Error)}, WebappSpec r webapp w (out, w1) →
      ∀ ev ∈ newEvents w w1, ev.call.kind ≠ .Ingress := by
    intro w1 out h1 ev hev
    rcases h1.webapp_stageLog.1 ev hev with h | h <;> rw [h] <;> decide
  cases h with
  | webappStop _ _ h1 _ =>
    intro ev hev _ hk
    exact absurd hk (hweb h1 ev hev)
  | thenRoute w1 out w2 h1 h2 =>
    intro ev hev hv hk
    rw [newEvents_trans h1.webapp_extends h2.route_extends] at hev ⊢
    rcases List.mem_append.1 hev with hin | hin
    · exact absurd hk (hweb h1 ev hin)
    · exact (h2.route_chainReady ev hin hv hk).mono (fun ev hev => List.mem_append.2 (Or.inr hev))

/-- C2 (amended): whenever a pass issues the Create of the route, the issuer is in
the store at that moment, and so is the certificate unless that same pass issued
the Create of the issuer. -/
theorem route_created_after_issuer (r : TestOperatorReconciler) (req : Request) (w : World)
    (webapp : TestOperator) (hload : w.store.lookup TestOperator req.NamespacedName = some webapp)
    (ev : Event) (hmem : ev ∈ passLog r req w)
    (hverb : ev.call.verb = .create) (hkind : ev.call.kind = .Ingress) :
    (ev.before.lookup ClusterIssuer ⟨webapp.Namespace, "letsencrypt-prod"⟩).isSome = true ∧
    ((∀ ev1 ∈ passLog r req w, ¬(ev1.call.verb = .create ∧ ev1.call.kind = .ClusterIssuer)) →
      (ev.before.lookup Certificate ⟨webapp.Namespace, webapp.Spec.Host⟩).isSome = true) := by
  rw [← keyOf_createIssuer r webapp, ← keyOf_createCert r webapp]
  show ChainReady r webapp (passLog r req w) ev.before
  unfold passLog at hmem ⊢
  have hp := Reconcile_spec r req w
  generalize r.Reconcile req w = res at hp hmem ⊢
  cases hp with
  | loadErr e hwhy =>
    simp [getEvent] at hmem
    rw [hmem] at hverb
    cases hverb
  | loaded webapp1 serr hinj hpres hserr =>
    have hw : webapp1 = webapp := Option.some.inj (hpres.symm.trans hload)
    subst hw
    have hc := converge_spec r webapp1
      ⟨w.store, w.log ++ [getEvent TestOperator req.NamespacedName none w.store,
        statusEvent webapp1 serr w.store]⟩
    have hext : Extends w ⟨w.store, w.log ++ [getEvent TestOperator req.NamespacedName none w.store,
        statusEvent webapp1 serr w.store]⟩ := ⟨_, rfl⟩
    have h := newEvents_trans hext hc.engine_extends
    have hready := hc.engine_chainReady
    unfold newEvents at h hready
    rw [h] at hmem ⊢
    rcases List.mem_append.1 hmem with hin | hin
    · simp [getEvent, statusEvent] at hin
      rcases hin with h1 | h1 <;> rw [h1] at hverb <;> cases hverb
    · exact (hready ev hin hverb hkind).mono (fun ev hev => List.mem_append.2 (Or.inr hev))

/-- Counterexample to C2 as stated: in the first pass on a store that holds only the
parent, the route is created while the certificate is absent (the last two columns
say whether the issuer and the certificate are stored when the call is issued). -/
theorem route_created_without_certificate :
    (passLog plainReconciler demoRequest parentOnly).map
        (fun ev => (ev.call.verb, ev.call.kind, ev.call.err,
          (ev.before.lookup ClusterIssuer ⟨"ns", "letsencrypt-prod"⟩).isSome,
          (ev.before.lookup Certificate ⟨"ns", "example.com"⟩).isSome)) =
      [(.get, .TestOperator, none, false, false),
       (.statusUpdate, .TestOperator, none, false, false),
       (.get, .Deployment, some (.status .NotFound "not found"), false, false),
       (.create, .Deployment, none, false, false),
       (.get, .ClusterIssuer, some (.status .NotFound "not found"), false, false),
       (.create, .ClusterIssuer, none, false, false),
       (.get, .Ingress, some (.status .NotFound "not found"), true, false),
       (.create, .Ingress, none, true, false)] := by
  decide

theorem routeless_pass_nonempty : passLog plainReconciler demoRequest routelessWorld ≠ [] :=
  List.ne_nil_of_length_pos (by decide)

/-- Witness of C2 (amended): the pass that creates the route of `demoParent` when
the rest is stored. -/
theorem route_created_after_issuer_witness :
    (((passLog plainReconciler demoRequest routelessWorld).getLast
        routeless_pass_nonempty).before.lookup ClusterIssuer
      ⟨demoParent.Namespace, "letsencrypt-prod"⟩).isSome = true ∧
    ((∀ ev1 ∈ passLog plainReconciler demoRequest routelessWorld,
        ¬(ev1.call.verb = .create ∧ ev1.call.kind = .ClusterIssuer)) →
      (((passLog plainReconciler demoRequest routelessWorld).getLast
          routeless_pass_nonempty).before.lookup Certificate
        ⟨demoParent.Namespace, demoParent.Spec.Host⟩).isSome = true) :=
  route_created_after_issuer plainReconciler demoRequest routelessWorld demoParent (by decide)
    ((passLog plainReconciler demoRequest routelessWorld).getLast routeless_pass_nonempty)
    (List.getLast_mem _) (by decide) (by decide)

/-! ### Evaluation of the steps when nothing fails -/

theorem createDeployment_snd (r : TestOperatorReconciler) (webapp : TestOperator) :
    (r.createDeployment webapp).2 = stampErr r webapp := by
  unfold TestOperatorReconciler.createDeployment SetControllerReference stampErr
  cases r.Scheme.ObjectKinds webapp <;> rfl

theorem createService_snd (r : TestOperatorReconciler) (webapp : TestOperator) :
    (r.createService webapp).2 = stampErr r webapp := by
  unfold TestOperatorReconciler.createService SetControllerReference stampErr
  cases r.Scheme.ObjectKinds webapp <;> rfl

theorem createIssuer_snd (r : TestOperatorReconciler) (webapp : TestOperator) :
    (r.createIssuer webapp).2 = stampErr r webapp := by
  unfold TestOperatorReconciler.createIssuer SetControllerReference stampErr
  cases r.Scheme.ObjectKinds webapp <;> rfl

theorem createCert_snd (r : TestOperatorReconciler) (webapp : TestOperator) :
    (r.createCert webapp).2 = stampErr r webapp := by
  unfold TestOperatorReconciler.createCert SetControllerReference stampErr
  cases r.Scheme.ObjectKinds webapp <;> rfl

theorem createIngress_snd (r : TestOperatorReconciler) (webapp : TestOperator) :
    (r.createIngress webapp).2 = stampErr r webapp := by
  unfold TestOperatorReconciler.createIngress SetControllerReference stampErr
  cases r.Scheme.ObjectKinds webapp <;> rfl

theorem ensureStep_stampErr (c : Client) {α : Type} [Resource α] (desc : α × Option Error)
    (w : World) (err : Error) (hd : desc.2 = some err) :
    ensureStep c desc w = (.inl (.ret (some err)), w) := by
  obtain ⟨obj, e⟩ := desc
  simp only at hd
  subst hd
  rfl

theorem converge_stampErr (r : TestOperatorReconciler) (webapp : TestOperator) (w : World)
    (e : Error) (hstamp : stampErr r webapp = some e) :
    r.converge webapp w = (.ret ({}, some e), w) := by
  unfold TestOperatorReconciler.converge
  rw [reconcileWebapp_eq,
    ensureStep_stampErr _ _ _ e ((createDeployment_snd r webapp).trans hstamp)]

theorem create_error_is_returned (r : TestOperatorReconciler) (req : Request) (w : World)
    (ev : Event) (e : Error) (hmem : ev ∈ passLog r req w)
    (hverb : ev.call.verb = .create) (herr : ev.call.err = some e) :
    (r.Reconcile req w).1 = .ret ({}, some e) := by
  obtain ⟨out, hout, hΦ⟩ := pass_log_property
    (fun evs out => ∀ ev ∈ evs, ev.call.verb = .create → ∀ e, ev.call.err = some e →
      out = .ret (some e))
    (fun evs => ∀ ev ∈ evs, ev.call.verb = .create → ev.call.err = none)
    (by
      intro a b out ha hb ev hev hv e he
      rcases List.mem_append.1 hev with h | h
      · rw [ha ev h hv] at he
        cases he
      · exact hb ev h hv e he)
    (by
      intro a ha ev hev hv
      cases herr : ev.call.err with
      | none => rfl
      | some e => cases ha ev hev hv e herr)
    (by
      intro a b ha hb ev hev hv e he
      rcases List.mem_append.1 hev with h | h
      · rw [ha ev h hv] at he
        cases he
      · rw [hb ev h hv] at he
        cases he)
    (by
      intro c α _ desc w out w1 h
      cases h <;> simp [newEvents, getEvent, createEvent])
    (by
      intro c α _ desc w o w1 h
      cases h
      simp [newEvents, getEvent])
    (by
      intro c webapp d w out w1 h
      cases h <;> simp [newEvents, updateEvent])
    (by
      intro c webapp d w w1 h
      cases h
      simp [newEvents])
    (by intro key e s; simp [getEvent])
    (by intro key webapp serr s; simp [getEvent, statusEvent])
    r req w
  rw [hout, hΦ ev hmem hverb e herr]
  rfl

/-- Counterexample to C7 as stated: the workload appeared before the Create (the
fetch was stale), the Create answers already-exists, and the pass returns that
error. -/
theorem already_exists_is_surfaced :
    (staleReconciler.Reconcile demoRequest raceWorld).1 =
      .ret ({}, some (.status .AlreadyExists "already exists")) ∧
    (passLog staleReconciler demoRequest raceWorld).map (fun ev => (ev.call.verb, ev.call.kind, ev.call.err)) =
      [(.get, .TestOperator, none), (.statusUpdate, .TestOperator, none),
       (.get, .Deployment, some (.status .NotFound "not found")),
       (.create, .Deployment, some (.status .AlreadyExists "already exists"))] := by
  constructor
  · decide
  · decide

theorem stale_pass_nonempty : passLog staleReconciler demoRequest raceWorld ≠ [] :=
  List.ne_nil_of_length_pos (by decide)

/-- Witness of C7 (amended): the stale pass on `raceWorld`. -/
theorem create_error_is_returned_witness :
    (staleReconciler.Reconcile demoRequest raceWorld).1 =
      .ret ({}, some (.status .AlreadyExists "already exists")) :=
  create_error_is_returned staleReconciler demoRequest raceWorld
    ((passLog staleReconciler demoRequest raceWorld).getLast stale_pass_nonempty)
    (.status .AlreadyExists "already exists") (List.getLast_mem _) (by decide) (by decide)

/-! ### C8: a failed fetch ends the pass -/

theorem FetchErrorEnds.of_quiet {evs : List Event} (out : Exec (Option Error))
    (h : NoFetchError evs) : FetchErrorEnds evs out := by
  intro pre post ev e hsplit hv he hnf
  have hmem : ev ∈ evs := by rw [hsplit]; simp
  rw [h ev hmem e hv he] at hnf
  cases hnf

theorem FetchErrorEnds.ends_append {a b : List Event} {out : Exec (Option Error)}
    (ha : NoFetchError a) (hb : FetchErrorEnds b out) : FetchErrorEnds (a ++ b) out := by
  intro pre post ev e hsplit hv he hnf
  rcases List.append_eq_append_iff.1 hsplit with ⟨a1, hpre, hb1⟩ | ⟨c1, ha1, hc1⟩
  · exact hb a1 post ev e hb1 hv he hnf
  · cases c1 with
    | nil =>
      simp only [List.nil_append] at hc1
      exact hb [] post ev e (by simpa using hc1.symm) hv he hnf
    | cons x rest =>
      simp only [List.cons_append, List.cons.injEq] at hc1
      have hmem : ev ∈ a := by rw [ha1, hc1.1]; simp
      rw [ha ev hmem e hv he] at hnf
      cases hnf

theorem FetchErrorEnds.quiet {a : List Event} (h : FetchErrorEnds a (.ret none)) :
    NoFetchError a := by
  intro ev hev e hv he
  obtain ⟨pre, post, hsplit⟩ := List.append_of_mem hev
  cases hnf : IsNotFound e with
  | true => rfl
  | false => cases (h pre post ev e hsplit hv he hnf).1

theorem NoFetchError.quiet_append {a b : List Event} (ha : NoFetchError a) (hb : NoFetchError b) :
    NoFetchError (a ++ b) := by
  intro ev hev
  rcases List.mem_append.1 hev with h | h
  · exact ha ev h
  · exact hb ev h

theorem FetchErrorEnds.single (ev : Event) (out : Exec (Option Error))
    (h : ∀ e, ev.call.verb = .get → ev.call.err = some e → IsNotFound e = false →
      out = .ret (some e)) : FetchErrorEnds [ev] out := by
  intro pre post ev1 e hsplit hv he hnf
  cases pre with
  | nil =>
    simp only [List.nil_append, List.cons.injEq] at hsplit
    obtain ⟨h1, h2⟩ := hsplit
    subst h1
    exact ⟨h e hv he hnf, h2.symm⟩
  | cons x rest =>
    simp at hsplit

/-- C8: if a fetch of a pass (of a child, or of the parent) fails with an error other
than not-found, the pass returns exactly that error and logs no call at all after
the failed fetch. -/
theorem fetch_error_aborts (r : TestOperatorReconciler) (req : Request) (w : World)
    (pre post : List Event) (ev : Event) (e : Error)
    (hlog : passLog r req w = pre ++ ev :: post)
    (hverb : ev.call.verb = .get) (herr : ev.call.err = some e)
    (hnf : IsNotFound e = false) :
    (r.Reconcile req w).1 = .ret ({}, some e) ∧ post = [] := by
  obtain ⟨out, hout, hΦ⟩ := pass_log_property FetchErrorEnds NoFetchError
    (fun a b out ha hb => FetchErrorEnds.ends_append ha hb)
    (fun a ha => ha.quiet)
    (fun a b ha hb => FetchErrorEnds.of_quiet _ (ha.quiet_append hb))
    (by
      intro c α _ desc w out w1 h
      cases h with
      | stampErr err hd =>
        rw [newEvents_self]
        exact FetchErrorEnds.of_quiet _ (by intro ev hev; cases hev)
      | fetchErr e hd hnf hinj =>
        have : newEvents w ⟨w.store, w.log ++ [getEvent α (keyOf desc.1) (some e) w.store]⟩ =
            [getEvent α (keyOf desc.1) (some e) w.store] := by simp [newEvents]
        rw [this]
        apply FetchErrorEnds.single
        intro e1 _ he1 _
        simp only [getEvent, Option.some.injEq] at he1
        rw [he1]
      | createErr e0 e hd hnf hget hwhy =>
        apply FetchErrorEnds.of_quiet
        intro ev hev e1 hv he1
        simp [newEvents, getEvent, createEvent] at hev
        rcases hev with h | h
        · rw [h] at he1
          simp only [Option.some.injEq] at he1
          rw [← he1]
          exact hnf
        · rw [h] at hv
          cases hv
      | created e0 hd hnf hinj habs =>
        apply FetchErrorEnds.of_quiet
        intro ev hev e1 hv he1
        simp [newEvents, getEvent, createEvent] at hev
        rcases hev with h | h
        · rw [h] at he1
          simp only [Option.some.injEq] at he1
          rw [← he1]
          exact hnf
        · rw [h] at hv
          cases hv)
    (by
      intro c α _ desc w o w1 h
      cases h
      intro ev hev e1 hv he1
      simp [newEvents, getEvent] at hev
      rw [hev] at he1
      cases he1)
    (by
      intro c webapp d w out w1 h
      apply FetchErrorEnds.of_quiet
      cases h with
      | nilDeref hnil =>
        rw [newEvents_self]
        intro ev hev
        cases hev
      | updateErr n e hn hne hwhy =>
        intro ev hev e1 hv he1
        simp [newEvents, updateEvent] at hev
        rw [hev] at hv
        cases hv
      | updated n hn hne hinj hpres =>
        intro ev hev e1 hv he1
        simp [newEvents, updateEvent] at hev
        rw [hev] at hv
        cases hv)
    (by
      intro c webapp d w w1 h
      cases h
      rw [newEvents_self]
      intro ev hev
      cases hev)
    (by
      intro key e s
      apply FetchErrorEnds.single
      intro e1 _ he1 hnf1
      simp only [getEvent, Option.some.injEq] at he1
      subst he1
      simp [hnf1])
    (by
      intro key webapp serr s ev hev e1 hv he1
      simp [getEvent, statusEvent] at hev
      rcases hev with h | h
      · rw [h] at he1
        cases he1
      · rw [h] at hv
        cases hv)
    r req w
  obtain ⟨h1, h2⟩ := hΦ pre post ev e hlog hverb herr hnf
  rw [hout, h1]
  exact ⟨rfl, h2⟩

theorem forbidden_pass_nonempty : passLog forbiddenReconciler demoRequest startedWorld ≠ [] :=
  List.ne_nil_of_length_pos (by decide)

/-- Witness of C8: the pass that is forbidden to read the service. -/
theorem fetch_error_aborts_witness :
    (forbiddenReconciler.Reconcile demoRequest startedWorld).1 =
      .ret ({}, some (.status .Forbidden "forbidden")) ∧ ([] : List Event) = [] :=
  fetch_error_aborts forbiddenReconciler demoRequest startedWorld
    (passLog forbiddenReconciler demoRequest startedWorld).dropLast []
    ((passLog forbiddenReconciler demoRequest startedWorld).getLast forbidden_pass_nonempty)
    (.status .Forbidden "forbidden")
    (List.dropLast_append_getLast forbidden_pass_nonempty).symm
    (by decide) (by decide) (by decide)

/-! ### C9: a failed stamping -/

/-- C9: if the parent loads and the stamping of any of the five descriptors fails
with `e`, the pass returns `e` and issues no Create and no Update. -/
theorem stamping_failure_is_fatal (r : TestOperatorReconciler) (req : Request) (w : World)
    (webapp : TestOperator) (e : Error)
    (hload : (r.Client.Get TestOperator req.NamespacedName w).1 = .ok webapp)
    (hstamp : (r.createDeployment webapp).2 = some e ∨ (r.createService webapp).2 = some e ∨
      (r.createIssuer webapp).2 = some e ∨ (r.createCert webapp).2 = some e ∨
      (r.createIngress webapp).2 = some e) :
    (r.Reconcile req w).1 = .ret ({}, some e) ∧ writes (passLog r req w) = [] := by
  have hst : stampErr r webapp = some e := by
    rcases hstamp with h | h | h | h | h
    · exact (createDeployment_snd r webapp).symm.trans h
    · exact (createService_snd r webapp).symm.trans h
    · exact (createIssuer_snd r webapp).symm.trans h
    · exact (createCert_snd r webapp).symm.trans h
    · exact (createIngress_snd r webapp).symm.trans h
  unfold passLog
  have hp := Reconcile_spec r req w
  generalize r.Reconcile req w = res at hp ⊢
  cases hp with
  | loadErr e0 hwhy =>
    exfalso
    unfold Client.Get at hload
    rcases hwhy with h | ⟨h, _⟩
    · have h1 : r.Client.inject .get (Resource.kind TestOperator) = some e0 := h
      simp [h1] at hload
    · have h1 : (Resource.table w.store (scopedKey (Resource.kind TestOperator)
          req.NamespacedName) : Option TestOperator) = none := h
      cases hi : r.Client.inject .get (Resource.kind TestOperator) <;> simp [hi, h1] at hload
  | loaded webapp1 serr hinj hpres hserr =>
    have hw : webapp1 = webapp := by
      unfold Client.Get at hload
      have h1 : r.Client.inject .get (Resource.kind TestOperator) = none := hinj
      have h2 : (Resource.table w.store (scopedKey (Resource.kind TestOperator)
          req.NamespacedName) : Option TestOperator) = some webapp1 := hpres
      simpa [h1, h2] using hload
    subst hw
    rw [converge_stampErr r webapp1 _ e hst]
    simp [writes, Call.isWrite, getEvent, statusEvent]

/-- Witness of C9: the pass of a reconciler whose scheme does not know the parent. -/
theorem stamping_failure_is_fatal_witness :
    (unregisteredReconciler.Reconcile demoRequest parentOnly).1 =
      .ret ({}, some (.other "no kind is registered for the type v1.TestOperator")) ∧
    writes (passLog unregisteredReconciler demoRequest parentOnly) = [] :=
  stamping_failure_is_fatal unregisteredReconciler demoRequest parentOnly demoParent
    (.other "no kind is registered for the type v1.TestOperator") (by rfl)
    (Or.inr (Or.inr (Or.inl (by decide))))

/-! ### C6: the pod template of a stored workload is never rewritten -/

theorem CertSpec.cert_deployments {r : TestOperatorReconciler} {webapp : TestOperator}
    {w : World} {res : Exec (Option Error) × World} (h : CertSpec r webapp w res) :
    res.2.store.deployments = w.store.deployments := by
  cases h with
  | atIssuer _ _ h1 => cases h1 <;> rfl
  | atCert _ _ _ _ h1 h2 => cases h1; cases h2 <;> rfl
  | certFound _ _ _ _ h1 h2 => cases h1; cases h2; rfl

theorem RouteSpec.route_deployments {r : TestOperatorReconciler} {webapp : TestOperator}
    {w : World} {res : Exec (Option Error) × World} (h : RouteSpec r webapp w res) :
    res.2.store.deployments = w.store.deployments := by
  cases h with
  | certStop _ _ h1 _ => exact h1.cert_deployments
  | atRoute _ _ _ h1 h2 =>
    have := h1.cert_deployments
    cases h2 <;> simpa [Store.put, Resource.setTable] using this
  | routeFound _ _ _ h1 h2 =>
    have := h1.cert_deployments
    cases h2
    simpa using this

theorem lookup_put_withReplicas (s : Store) (d : Deployment) (n : Int) (key : NamespacedName)
    (hd : s.lookup Deployment key = some d) :
    ∃ d1, (s.put (withReplicas d n)).lookup Deployment key = some d1 ∧
      d1.Spec.Template = d.Spec.Template := by
  by_cases hk : key = keyOf d
  · refine ⟨withReplicas d n, ?_, rfl⟩
    subst hk
    simp [Store.lookup, Store.put, Resource.table, Resource.setTable, putAt, withReplicas,
      keyOf, Resource.objectMeta, scopedKey, Resource.kind, Kind.namespaced]
  · refine ⟨d, ?_, rfl⟩
    have hd2 : s.deployments key = some d := hd
    have hk2 : ¬ key = ⟨d.Namespace, d.Name⟩ := hk
    simp [Store.lookup, Store.put, Resource.table, Resource.setTable, putAt, withReplicas,
      keyOf, Resource.objectMeta, scopedKey, Resource.kind, Kind.namespaced, hk2, hd2]

theorem WebappSpec.webapp_template {r : TestOperatorReconciler} {webapp : TestOperator}
    {w : World} {res : Exec (Option Error) × World} (h : WebappSpec r webapp w res)
    (d : Deployment)
    (hd : w.store.lookup Deployment (keyOf (r.createDeployment webapp).1) = some d) :
    ∃ d1, res.2.store.lookup Deployment (keyOf (r.createDeployment webapp).1) = some d1 ∧
      d1.Spec.Template = d.Spec.Template := by
  cases h with
  | atWorkload _ _ h1 =>
    cases h1 with
    | stampErr => exact ⟨d, hd, rfl⟩
    | fetchErr => exact ⟨d, hd, rfl⟩
    | createErr => exact ⟨d, hd, rfl⟩
    | created e0 hd1 hnf hinj habs =>
      rw [habs] at hd
      cases hd
  | atReplicas d0 _ _ _ h1 h2 =>
    cases h1 with
    | found o hd1 hinj hpres =>
      have hdo : d0 = d := Option.some.inj (hpres.symm.trans hd)
      subst hdo
      cases h2 with
      | nilDeref => exact ⟨d0, hd, rfl⟩
      | updateErr => exact ⟨d0, hd, rfl⟩
      | updated n hn hne hinj2 hpres2 => exact lookup_put_withReplicas _ _ _ _ hd
  | atService d0 _ _ _ _ h1 h2 h3 =>
    cases h1
    cases h2
    cases h3 <;> exact ⟨d, hd, rfl⟩
  | serviceFound d0 _ _ _ _ h1 h2 h3 =>
    cases h1
    cases h2
    cases h3
    exact ⟨d, hd, rfl⟩

theorem ConvergeSpec.engine_template {r : TestOperatorReconciler} {webapp : TestOperator}
    {w : World} {res : Exec (Result × Option Error) × World} (h : ConvergeSpec r webapp w res)
    (d : Deployment)
    (hd : w.store.lookup Deployment (keyOf (r.createDeployment webapp).1) = some d) :
    ∃ d1, res.2.store.lookup Deployment (keyOf (r.createDeployment webapp).1) = some d1 ∧
      d1.Spec.Template = d.Spec.Template := by
  cases h with
  | webappStop _ _ h1 _ => exact h1.webapp_template d hd
  | thenRoute _ _ _ h1 h2 =>
    obtain ⟨d1, h3, h4⟩ := h1.webapp_template d hd
    refine ⟨d1, ?_, h4⟩
    have := h2.route_deployments
    simp only [Store.lookup, Resource.table] at h3 ⊢
    rw [this]
    exact h3

/-- C6: a workload stored at the derived identity of the parent is still stored
there after a pass, with the same pod template and hence the same container
images, whatever the image of the spec is, whether or not the replica count was
patched, and whatever the store calls answer. -/
theorem image_not_reconciled (r : TestOperatorReconciler) (req : Request) (w : World)
    (webapp : TestOperator) (d : Deployment)
    (hload : w.store.lookup TestOperator req.NamespacedName = some webapp)
    (hd : w.store.lookup Deployment ⟨webapp.Namespace, webapp.Name⟩ = some d) :
    ∃ d1, (r.Reconcile req w).2.store.lookup Deployment ⟨webapp.Namespace, webapp.Name⟩ = some d1 ∧
      d1.Spec.Template = d.Spec.Template ∧ d1.images = d.images := by
  suffices h : ∃ d1, (r.Reconcile req w).2.store.lookup Deployment
      ⟨webapp.Namespace, webapp.Name⟩ = some d1 ∧ d1.Spec.Template = d.Spec.Template by
    obtain ⟨d1, h1, h2⟩ := h
    exact ⟨d1, h1, h2, by simp [Deployment.images, h2]⟩
  rw [← keyOf_createDeployment r webapp] at hd ⊢
  have hp := Reconcile_spec r req w
  generalize r.Reconcile req w = res at hp ⊢
  cases hp with
  | loadErr e hwhy => exact ⟨d, hd, rfl⟩
  | loaded webapp1 serr hinj hpres hserr =>
    have hw : webapp1 = webapp := Option.some.inj (hpres.symm.trans hload)
    subst hw
    exact (converge_spec r webapp1 _).engine_template d hd

/-! ### C4 and C5: the passes of a run in which nothing fails -/

/-- Witness of C6: the spec asks for `img:2`, the stored workload keeps `img:1`. -/
theorem image_not_reconciled_witness :
    (driftedParent.Spec.Image = "img:2" ∧
    (driftedWorld.store.lookup Deployment ⟨"ns", "app"⟩).map Deployment.images =
      some ["img:1"] ∧
    ((plainReconciler.Reconcile demoRequest driftedWorld).2.store.lookup Deployment
      ⟨"ns", "app"⟩).map Deployment.images = some ["img:1"]) ∧
    ∃ d1, (plainReconciler.Reconcile demoRequest driftedWorld).2.store.lookup Deployment
        ⟨driftedParent.Namespace, driftedParent.Name⟩ = some d1 ∧
      d1.Spec.Template = (plainReconciler.createDeployment demoParent).1.Spec.Template ∧
      d1.images = (plainReconciler.createDeployment demoParent).1.images :=
  ⟨⟨by decide, by decide, by decide⟩,
    image_not_reconciled plainReconciler demoRequest driftedWorld driftedParent
      (plainReconciler.createDeployment demoParent).1 (by decide) (by decide)⟩

/-- C11: for every parent, the synthesized route has exactly one rule, whose host
is the host of the parent, and one TLS entry with that host alone and the secret
name `letsencrypt-prod`; the synthesized certificate is named after the host, its
secret name is the host followed by `-tls`, its DNS names are the host alone and
its issuer reference is named `letsencrypt-prod`.  This holds whether or not the
stamping of the owner succeeds. -/
theorem host_derivation (r : TestOperatorReconciler) (webapp : TestOperator) :
    ((r.createIngress webapp).1.Spec.Rules.length = 1 ∧
      (r.createIngress webapp).1.Spec.Rules.map (fun rule => rule.Host) = [webapp.Spec.Host]) ∧
    (r.createIngress webapp).1.Spec.TLS =
      [{ Hosts := [webapp.Spec.Host], SecretName := "letsencrypt-prod" }] ∧
    (r.createCert webapp).1.Name = webapp.Spec.Host ∧
    (r.createCert webapp).1.Spec.SecretName = webapp.Spec.Host ++ "-tls" ∧
    (r.createCert webapp).1.Spec.DNSNames = [webapp.Spec.Host] ∧
    (r.createCert webapp).1.Spec.IssuerRef.Name = "letsencrypt-prod" := by
  unfold TestOperatorReconciler.createIngress TestOperatorReconciler.createCert
    SetControllerReference
  cases r.Scheme.ObjectKinds webapp <;> simp

/-- Witness of C11: the derivation at the host `example.com`. -/
theorem host_derivation_witness :
    (((plainReconciler.createIngress demoParent).1.Spec.Rules.length = 1 ∧
      (plainReconciler.createIngress demoParent).1.Spec.Rules.map (fun rule => rule.Host) =
        ["example.com"]) ∧
    (plainReconciler.createIngress demoParent).1.Spec.TLS =
      [{ Hosts := ["example.com"], SecretName := "letsencrypt-prod" }] ∧
    (plainReconciler.createCert demoParent).1.Name = "example.com" ∧
    (plainReconciler.createCert demoParent).1.Spec.SecretName = "example.com-tls" ∧
    (plainReconciler.createCert demoParent).1.Spec.DNSNames = ["example.com"] ∧
    (plainReconciler.createCert demoParent).1.Spec.IssuerRef.Name = "letsencrypt-prod") :=
  host_derivation plainReconciler demoParent

/-- C12: for every parent, the labels of the synthesized workload, the match-labels
of its selector, the labels of its pod template and the selector of the synthesized
service are the same map, with the single entry `webapp` bound to the name of the
parent. -/
theorem selector_label_agreement (r : TestOperatorReconciler) (webapp : TestOperator) :
    (r.createDeployment webapp).1.Labels = [("webapp", webapp.Name)] ∧
    (r.createDeployment webapp).1.Spec.Selector =
      some { MatchLabels := [("webapp", webapp.Name)] } ∧
    (r.createDeployment webapp).1.Spec.Template.Labels = [("webapp", webapp.Name)] ∧
    (r.createService webapp).1.Spec.Selector = [("webapp", webapp.Name)] := by
  unfold TestOperatorReconciler.createDeployment TestOperatorReconciler.createService
    SetControllerReference
  cases r.Scheme.ObjectKinds webapp <;> simp

/-- C16: for every parent, the synthesized service exposes port 443 with target
port name `https` and port 80 with target port name `http`; the target of each
service port is the name of a container port of the synthesized workload with the
same number and protocol TCP; the synthesized route has one rule with the single
path `/`, whose backend names the synthesized service and its port 80, which is
one of the ports of that service. -/
theorem ports_and_backend_consistent (r : TestOperatorReconciler) (webapp : TestOperator) :
    (r.createService webapp).1.Spec.Ports.map (fun p => (p.Port, p.TargetPort)) =
      [(443, .FromString "https"), (80, .FromString "http")] ∧
    (∀ p ∈ (r.createService webapp).1.Spec.Ports,
      ∃ c ∈ (r.createDeployment webapp).1.Spec.Template.Spec.Containers, ∃ cp ∈ c.Ports,
        p.TargetPort = .FromString cp.Name ∧ cp.ContainerPort = p.Port ∧ cp.Protocol = "TCP") ∧
    (r.createIngress webapp).1.Spec.Rules.map
        (fun rule => rule.HTTP.map (fun http => http.Paths.map
          (fun p => (p.Path, p.Backend.Service.map (fun s => (s.Name, s.Port.Number)))))) =
      [some [("/", some ((r.createService webapp).1.Name, 80))]] ∧
    (80 : Int) ∈ (r.createService webapp).1.Spec.Ports.map (fun p => p.Port) := by
  unfold TestOperatorReconciler.createDeployment TestOperatorReconciler.createService
    TestOperatorReconciler.createIngress SetControllerReference
  cases r.Scheme.ObjectKinds webapp <;> simp

/-! ### C17: a parent that does not load -/

/-- A failed fetch answers with an injected failure, or with not-found when the
store holds nothing at the identity. -/
theorem get_error_why (c : Client) (α : Type) [Resource α] (key : NamespacedName) (w : World)
    (e : Error) (h : (c.Get α key w).1 = .error e) :
    c.inject .get (Resource.kind α) = some e ∨
      (c.inject .get (Resource.kind α) = none ∧ w.store.lookup α key = none ∧
        e = .status .NotFound "not found") := by
  unfold Client.Get at h
  cases hi : c.inject .get (Resource.kind α) with
  | some e0 =>
    simp only [hi] at h
    cases h
    exact Or.inl rfl
  | none =>
    cases hl : w.store.lookup α key with
    | some o =>
      have hl2 : (Resource.table w.store (scopedKey (Resource.kind α) key) : Option α) =
          some o := hl
      simp [hi, hl2] at h
    | none =>
      have hl2 : (Resource.table w.store (scopedKey (Resource.kind α) key) : Option α) =
          none := hl
      simp only [hi, hl2] at h
      cases h
      exact Or.inr ⟨rfl, rfl, rfl⟩

/-- A fetch that succeeds met no injected failure and read the store. -/
theorem get_ok_why (c : Client) (α : Type) [Resource α] (key : NamespacedName) (w : World)
    (o : α) (h : (c.Get α key w).1 = .ok o) :
    c.inject .get (Resource.kind α) = none ∧ w.store.lookup α key = some o := by
  unfold Client.Get at h
  cases hi : c.inject .get (Resource.kind α) with
  | some e0 => simp [hi] at h
  | none =>
    cases hl : w.store.lookup α key with
    | some o1 =>
      have hl2 : (Resource.table w.store (scopedKey (Resource.kind α) key) : Option α) =
          some o1 := hl
      simp only [hi, hl2] at h
      cases h
      exact ⟨rfl, rfl⟩
    | none =>
      have hl2 : (Resource.table w.store (scopedKey (Resource.kind α) key) : Option α) =
          none := hl
      simp [hi, hl2] at h

/-- A failed fetch leaves the store as it was and logs one call. -/
theorem get_error_world (c : Client) (α : Type) [Resource α] (key : NamespacedName) (w : World)
    (e : Error) (h : (c.Get α key w).1 = .error e) :
    (c.Get α key w).2 = ⟨w.store, w.log ++ [getEvent α key (some e) w.store]⟩ := by
  unfold Client.Get at h ⊢
  cases hi : c.inject .get (Resource.kind α) with
  | some e0 =>
    simp only [hi] at h ⊢
    cases h
    rfl
  | none =>
    cases hl : (Resource.table w.store (scopedKey (Resource.kind α) key) : Option α) with
    | some o => simp [hi, hl] at h
    | none =>
      simp only [hi, hl] at h ⊢
      cases h
      rfl

/-- C17: when the fetch of the parent fails with `e`, the pass returns success if
`e` is not-found and returns exactly `e` otherwise; in both cases the fetch of the
parent is the only call of the pass (no status update, no fetch, create or update
of a child) and the store is left as it was. -/
theorem unloaded_parent_touches_nothing (r : TestOperatorReconciler) (req : Request) (w : World)
    (e : Error) (hget : (r.Client.Get TestOperator req.NamespacedName w).1 = .error e) :
    (IsNotFound e = true → (r.Reconcile req w).1 = .ret ({}, none)) ∧
    (IsNotFound e = false → (r.Reconcile req w).1 = .ret ({}, some e)) ∧
    passLog r req w = [getEvent TestOperator req.NamespacedName (some e) w.store] ∧
    (r.Reconcile req w).2.store = w.store := by
  have hw := get_error_world _ _ _ _ _ hget
  unfold passLog TestOperatorReconciler.Reconcile
  rcases hres : r.Client.Get TestOperator req.NamespacedName w with ⟨res, w1⟩
  rw [hres] at hget hw
  simp only at hget hw
  subst hget
  subst hw
  cases hnf : IsNotFound e <;> simp [hnf]

/-- Witness of C17: a request for a parent the store does not hold. -/
theorem unloaded_parent_touches_nothing_witness :
    (IsNotFound (.status .NotFound "not found") = true →
      (plainReconciler.Reconcile otherRequest parentOnly).1 = .ret ({}, none)) ∧
    (IsNotFound (.status .NotFound "not found") = false →
      (plainReconciler.Reconcile otherRequest parentOnly).1 =
        .ret ({}, some (.status .NotFound "not found"))) ∧
    passLog plainReconciler otherRequest parentOnly =
      [getEvent TestOperator otherRequest.NamespacedName (some (.status .NotFound "not found"))
        parentOnly.store] ∧
    (plainReconciler.Reconcile otherRequest parentOnly).2.store = parentOnly.store :=
  unloaded_parent_touches_nothing plainReconciler otherRequest parentOnly
    (.status .NotFound "not found") (by rfl)

/-! ### C18: where a pass can be undefined -/

theorem Get_shift (c : Client) (α : Type) [Resource α] (key : NamespacedName) (l : List Event)
    (w : World) :
    c.Get α key (w.shift l) = ((c.Get α key w).1, (c.Get α key w).2.shift l) := by
  unfold Client.Get
  cases hi : c.inject .get (Resource.kind α) with
  | some e => simp [World.shift, World.record, hi]
  | none =>
    cases hl : (Resource.table w.store (scopedKey (Resource.kind α) key) : Option α) <;>
      simp [World.shift, World.record, hi, hl]

theorem Create_shift (c : Client) {α : Type} [Resource α] (obj : α) (l : List Event)
    (w : World) :
    c.Create obj (w.shift l) = ((c.Create obj w).1, (c.Create obj w).2.shift l) := by
  unfold Client.Create
  cases hi : c.inject .create (Resource.kind α) with
  | some e => simp [World.shift, World.record, hi]
  | none =>
    cases hl : (Resource.table w.store (scopedKey (Resource.kind α) (keyOf obj)) : Option α) <;>
      simp [World.shift, World.record, hi, hl]

theorem Update_shift (c : Client) {α : Type} [Resource α] (obj : α) (l : List Event)
    (w : World) :
    c.Update obj (w.shift l) = ((c.Update obj w).1, (c.Update obj w).2.shift l) := by
  unfold Client.Update
  cases hi : c.inject .update (Resource.kind α) with
  | some e => simp [World.shift, World.record, hi]
  | none =>
    cases hl : (Resource.table w.store (scopedKey (Resource.kind α) (keyOf obj)) : Option α) <;>
      simp [World.shift, World.record, hi, hl]

theorem ensureStep_shift (c : Client) {α : Type} [Resource α] (desc : α × Option Error)
    (l : List Event) (w : World) :
    ensureStep c desc (w.shift l) = ((ensureStep c desc w).1, (ensureStep c desc w).2.shift l) := by
  obtain ⟨obj, err⟩ := desc
  cases err with
  | some err => rfl
  | none =>
    simp only [ensureStep, Get_shift]
    rcases c.Get α (keyOf obj) w with ⟨res, w1⟩
    cases res with
    | ok found => rfl
    | error e =>
      simp only []
      cases IsNotFound e with
      | false => rfl
      | true =>
        simp only [if_true, Create_shift]
        rcases c.Create obj w1 with ⟨e2, w2⟩
        cases e2 <;> rfl

theorem replicaStep_shift (c : Client) (webapp : TestOperator) (d : Deployment)
    (l : List Event) (w : World) :
    replicaStep c webapp d (w.shift l) =
      ((replicaStep c webapp d w).1, (replicaStep c webapp d w).2.shift l) := by
  unfold replicaStep
  cases d.Spec.Replicas with
  | none => rfl
  | some n =>
    simp only []
    by_cases hn : webapp.Spec.Replicas = n
    · simp [hn]
    · simp only [ne_eq, hn, not_false_eq_true, if_true, Update_shift]
      rcases c.Update _ w with ⟨e2, w2⟩
      cases e2 <;> rfl

theorem reconcileWebapp_shift (r : TestOperatorReconciler) (webapp : TestOperator)
    (l : List Event) (w : World) :
    r.reconcileWebapp webapp (w.shift l) =
      ((r.reconcileWebapp webapp w).1, (r.reconcileWebapp webapp w).2.shift l) := by
  simp only [reconcileWebapp_eq, ensureStep_shift]
  rcases ensureStep r.Client (r.createDeployment webapp) w with ⟨out | d, w1⟩
  · rfl
  · simp only [replicaStep_shift]
    rcases replicaStep r.Client webapp d w1 with ⟨out | u, w2⟩
    · rfl
    · simp only [ensureStep_shift]
      rcases ensureStep r.Client (r.createService webapp) w2 with ⟨out | svc, w3⟩ <;> rfl

theorem reconcileIngressCert_shift (r : TestOperatorReconciler) (webapp : TestOperator)
    (l : List Event) (w : World) :
    r.reconcileIngressCert webapp (w.shift l) =
      ((r.reconcileIngressCert webapp w).1, (r.reconcileIngressCert webapp w).2.shift l) := by
  simp only [reconcileIngressCert_eq, ensureStep_shift]
  rcases ensureStep r.Client (r.createIssuer webapp) w with ⟨out | i, w1⟩
  · rfl
  · simp only [ensureStep_shift]
    rcases ensureStep r.Client (r.createCert webapp) w1 with ⟨out | crt, w2⟩ <;> rfl

theorem reconcileWebappIngress_shift (r : TestOperatorReconciler) (webapp : TestOperator)
    (l : List Event) (w : World) :
    r.reconcileWebappIngress webapp (w.shift l) =
      ((r.reconcileWebappIngress webapp w).1, (r.reconcileWebappIngress webapp w).2.shift l) := by
  simp only [reconcileWebappIngress_eq, reconcileIngressCert_shift]
  rcases r.reconcileIngressCert webapp w with ⟨(_ | err) | _, w1⟩
  · simp only [ensureStep_shift]
    rcases ensureStep r.Client (r.createIngress webapp) w1 with ⟨out | ing, w2⟩ <;> rfl
  · rfl
  · rfl

theorem converge_shift (r : TestOperatorReconciler) (webapp : TestOperator)
    (l : List Event) (w : World) :
    r.converge webapp (w.shift l) =
      ((r.converge webapp w).1, (r.converge webapp w).2.shift l) := by
  simp only [TestOperatorReconciler.converge, reconcileWebapp_shift]
  rcases r.reconcileWebapp webapp w with ⟨(_ | err) | _, w1⟩
  · simp only [reconcileWebappIngress_shift]
    rcases r.reconcileWebappIngress webapp w1 with ⟨(_ | err) | _, w2⟩ <;> rfl
  · rfl
  · rfl

/-! Two clients that differ only in what a status write meets drive the engine alike. -/

theorem ensureStep_agree (c1 c2 : Client)
    (hagree : ∀ v k, v ≠ .statusUpdate → c2.inject v k = c1.inject v k)
    {α : Type} [Resource α] (desc : α × Option Error) (w : World) :
    ensureStep c2 desc w = ensureStep c1 desc w := by
  simp only [ensureStep, Client.Get, Client.Create, hagree .get _ (by decide),
    hagree .create _ (by decide)]

theorem replicaStep_agree (c1 c2 : Client)
    (hagree : ∀ v k, v ≠ .statusUpdate → c2.inject v k = c1.inject v k)
    (webapp : TestOperator) (d : Deployment) (w : World) :
    replicaStep c2 webapp d w = replicaStep c1 webapp d w := by
  simp only [replicaStep, Client.Update, hagree .update _ (by decide)]

theorem converge_agree (r1 r2 : TestOperatorReconciler) (hscheme : r2.Scheme = r1.Scheme)
    (hagree : ∀ v k, v ≠ .statusUpdate → r2.Client.inject v k = r1.Client.inject v k)
    (webapp : TestOperator) (w : World) :
    r2.converge webapp w = r1.converge webapp w := by
  have hd : r2.createDeployment webapp = r1.createDeployment webapp := by
    simp only [TestOperatorReconciler.createDeployment, hscheme]
  have hs : r2.createService webapp = r1.createService webapp := by
    simp only [TestOperatorReconciler.createService, hscheme]
  have hi : r2.createIssuer webapp = r1.createIssuer webapp := by
    simp only [TestOperatorReconciler.createIssuer, hscheme]
  have hc : r2.createCert webapp = r1.createCert webapp := by
    simp only [TestOperatorReconciler.createCert, hscheme]
  have hg : r2.createIngress webapp = r1.createIngress webapp := by
    simp only [TestOperatorReconciler.createIngress, hscheme]
  have hweb : ∀ w, r2.reconcileWebapp webapp w = r1.reconcileWebapp webapp w := by
    intro w
    simp only [reconcileWebapp_eq, hd, hs, ensureStep_agree r1.Client r2.Client hagree,
      replicaStep_agree r1.Client r2.Client hagree]
  have hcert : ∀ w, r2.reconcileIngressCert webapp w = r1.reconcileIngressCert webapp w := by
    intro w
    simp only [reconcileIngressCert_eq, hi, hc, ensureStep_agree r1.Client r2.Client hagree]
  have hroute : ∀ w, r2.reconcileWebappIngress webapp w = r1.reconcileWebappIngress webapp w := by
    intro w
    simp only [reconcileWebappIngress_eq, hcert, hg, ensureStep_agree r1.Client r2.Client hagree]
  simp only [TestOperatorReconciler.converge, hweb, hroute]

/-- A pass whose fetch of the parent succeeds is the status write followed by the
engine on the loaded parent. -/
theorem Reconcile_of_loaded (r : TestOperatorReconciler) (req : Request) (w : World)
    (webapp : TestOperator)
    (hload : (r.Client.Get TestOperator req.NamespacedName w).1 = .ok webapp) :
    ∃ serr, r.Reconcile req w =
      r.converge webapp
        ⟨w.store, w.log ++ [getEvent TestOperator req.NamespacedName none w.store,
          statusEvent webapp serr w.store]⟩ := by
  obtain ⟨hi, hl⟩ := get_ok_why _ _ _ _ _ hload
  have hp := Reconcile_spec r req w
  generalize r.Reconcile req w = res at hp
  cases hp with
  | loadErr e hwhy =>
    rcases hwhy with h | ⟨h, _⟩
    · rw [show Kind.TestOperator = Resource.kind TestOperator from rfl, hi] at h
      cases h
    · rw [hl] at h
      cases h
  | loaded webapp1 serr hinj hpres hserr =>
    have hw : webapp1 = webapp := Option.some.inj (hpres.symm.trans hl)
    subst hw
    exact ⟨serr, rfl⟩

/-- The engine issues no call on the parent kind. -/
theorem engineLog_child_kinds {evs : List Event} (h : EngineLog evs) :
    ∀ ev ∈ evs, ev.call.kind ≠ .TestOperator := by
  obtain ⟨a, b, c, rfl, ha, hb, hc⟩ := h
  intro ev hev
  simp only [List.mem_append] at hev
  rcases hev with h | h | h
  · rcases ha.1 ev h with h1 | h1 <;> rw [h1] <;> decide
  · rcases hb.1 ev h with h1 | h1 <;> rw [h1] <;> decide
  · rw [hc.1 ev h]
    decide

/-- C14: let two reconcilers differ at most in what a status write meets (one may
succeed where the other fails).  Whenever the fetch of the parent succeeds, the
log of a pass of either is the fetch of the parent, then one status write, then
calls on child kinds only, and these child calls are the same for both; the two
passes return the same outcome and leave the same store. -/
theorem status_write_nonblocking (r1 r2 : TestOperatorReconciler) (req : Request) (w : World)
    (webapp : TestOperator) (hscheme : r2.Scheme = r1.Scheme)
    (hagree : ∀ v k, v ≠ .statusUpdate → r2.Client.inject v k = r1.Client.inject v k)
    (hload : (r1.Client.Get TestOperator req.NamespacedName w).1 = .ok webapp) :
    ∃ serr1 serr2 rest,
      passLog r1 req w = getEvent TestOperator req.NamespacedName none w.store ::
        statusEvent webapp serr1 w.store :: rest ∧
      passLog r2 req w = getEvent TestOperator req.NamespacedName none w.store ::
        statusEvent webapp serr2 w.store :: rest ∧
      (∀ ev ∈ rest, ev.call.kind ≠ .TestOperator) ∧
      (r2.Reconcile req w).1 = (r1.Reconcile req w).1 ∧
      (r2.Reconcile req w).2.store = (r1.Reconcile req w).2.store := by
  have hload2 : (r2.Client.Get TestOperator req.NamespacedName w).1 = .ok webapp := by
    rw [← hload]
    simp only [Client.Get, hagree .get _ (by decide)]
  obtain ⟨serr1, h1⟩ := Reconcile_of_loaded r1 req w webapp hload
  obtain ⟨serr2, h2⟩ := Reconcile_of_loaded r2 req w webapp hload2
  have hsh : ∀ serr, (⟨w.store, w.log ++ [getEvent TestOperator req.NamespacedName none w.store,
      statusEvent webapp serr w.store]⟩ : World) =
      World.shift (w.log ++ [getEvent TestOperator req.NamespacedName none w.store,
        statusEvent webapp serr w.store]) ⟨w.store, []⟩ := by
    intro serr
    simp [World.shift]
  rw [hsh, converge_shift] at h1 h2
  rw [converge_agree r1 r2 hscheme hagree] at h2
  refine ⟨serr1, serr2, (r1.converge webapp ⟨w.store, []⟩).2.log, ?_, ?_, ?_, ?_, ?_⟩
  · simp [passLog, h1, World.shift]
  · simp [passLog, h2, World.shift]
  · have := (converge_spec r1 webapp ⟨w.store, []⟩).engine_engineLog
    exact engineLog_child_kinds (by simpa [newEvents] using this)
  · rw [h1, h2]
  · rw [h1, h2]
    rfl

/-- Witness of C14: a client whose status writes meet a conflict against one that
never fails, on a parent without children; the two logs differ, in the answer to
the status write only. -/
theorem status_write_nonblocking_witness :
    (passLog conflictReconciler demoRequest parentOnly).map (fun ev => (ev.call.verb, ev.call.err)) ≠
      (passLog plainReconciler demoRequest parentOnly).map (fun ev => (ev.call.verb, ev.call.err)) ∧
    ∃ serr1 serr2 rest,
      passLog plainReconciler demoRequest parentOnly =
        getEvent TestOperator demoRequest.NamespacedName none parentOnly.store ::
          statusEvent demoParent serr1 parentOnly.store :: rest ∧
      passLog conflictReconciler demoRequest parentOnly =
        getEvent TestOperator demoRequest.NamespacedName none parentOnly.store ::
          statusEvent demoParent serr2 parentOnly.store :: rest ∧
      (∀ ev ∈ rest, ev.call.kind ≠ .TestOperator) ∧
      (conflictReconciler.Reconcile demoRequest parentOnly).1 =
        (plainReconciler.Reconcile demoRequest parentOnly).1 ∧
      (conflictReconciler.Reconcile demoRequest parentOnly).2.store =
        (plainReconciler.Reconcile demoRequest parentOnly).2.store :=
  ⟨by decide,
    status_write_nonblocking plainReconciler conflictReconciler demoRequest parentOnly demoParent
      rfl (fun v k hv => by cases v <;> first | rfl | exact absurd rfl hv) (by rfl)⟩

/-! ### C13: the owner references of what is written -/

theorem createDeployment_stamped (r : TestOperatorReconciler) (webapp : TestOperator) :
    Stamped r webapp (r.createDeployment webapp) := by
  unfold Stamped TestOperatorReconciler.createDeployment SetControllerReference
  cases h : r.Scheme.ObjectKinds webapp with
  | error e => simp
  | ok gvk => exact fun _ => ⟨gvk, rfl, rfl⟩

theorem createService_stamped (r : TestOperatorReconciler) (webapp : TestOperator) :
    Stamped r webapp (r.createService webapp) := by
  unfold Stamped TestOperatorReconciler.createService SetControllerReference
  cases h : r.Scheme.ObjectKinds webapp with
  | error e => simp
  | ok gvk => exact fun _ => ⟨gvk, rfl, rfl⟩

theorem createIssuer_stamped (r : TestOperatorReconciler) (webapp : TestOperator) :
    Stamped r webapp (r.createIssuer webapp) := by
  unfold Stamped TestOperatorReconciler.createIssuer SetControllerReference
  cases h : r.Scheme.ObjectKinds webapp with
  | error e => simp
  | ok gvk => exact fun _ => ⟨gvk, rfl, rfl⟩

theorem createCert_stamped (r : TestOperatorReconciler) (webapp : TestOperator) :
    Stamped r webapp (r.createCert webapp) := by
  unfold Stamped TestOperatorReconciler.createCert SetControllerReference
  cases h : r.Scheme.ObjectKinds webapp with
  | error e => simp
  | ok gvk => exact fun _ => ⟨gvk, rfl, rfl⟩

theorem createIngress_stamped (r : TestOperatorReconciler) (webapp : TestOperator) :
    Stamped r webapp (r.createIngress webapp) := by
  unfold Stamped TestOperatorReconciler.createIngress SetControllerReference
  cases h : r.Scheme.ObjectKinds webapp with
  | error e => simp
  | ok gvk => exact fun _ => ⟨gvk, rfl, rfl⟩

theorem ensure_writeCarries {r : TestOperatorReconciler} {webapp : TestOperator}
    {c : Client} {α : Type} [Resource α] {desc : α × Option Error} {w : World}
    {res : (Exec (Option Error) ⊕ α) × World} (h : EnsureSpec c desc w res)
    (hst : Stamped r webapp desc) :
    ∀ ev ∈ newEvents w res.2, WriteCarries r webapp ev := by
  cases h with
  | stampErr err hd =>
    intro ev hev
    simp [newEvents] at hev
  | fetchErr e hd hnf hinj =>
    intro ev hev
    simp only [newEvents, List.drop_left, List.mem_singleton] at hev
    subst hev
    exact ⟨fun h => (by cases h), fun h => (by cases h)⟩
  | createErr e0 e hd hnf hget hwhy =>
    intro ev hev
    simp only [newEvents, List.drop_left, List.mem_cons, List.mem_singleton,
      List.not_mem_nil, or_false] at hev
    rcases hev with h | h
    · subst h
      exact ⟨fun h => (by cases h), fun h => (by cases h)⟩
    · subst h
      obtain ⟨gvk, h1, h2⟩ := hst hd
      exact ⟨fun _ => ⟨gvk, _, h1, rfl, h2⟩, fun h => by cases h⟩
  | created e0 hd hnf hinj habs =>
    intro ev hev
    simp only [newEvents, List.drop_left, List.mem_cons, List.mem_singleton,
      List.not_mem_nil, or_false] at hev
    rcases hev with h | h
    · subst h
      exact ⟨fun h => (by cases h), fun h => (by cases h)⟩
    · subst h
      obtain ⟨gvk, h1, h2⟩ := hst hd
      exact ⟨fun _ => ⟨gvk, _, h1, rfl, h2⟩, fun h => by cases h⟩
  | found o hd hinj hpres =>
    intro ev hev
    simp only [newEvents, List.drop_left, List.mem_singleton] at hev
    subst hev
    exact ⟨fun h => (by cases h), fun h => (by cases h)⟩

theorem replica_writeCarries {r : TestOperatorReconciler} {webapp : TestOperator}
    {d : Deployment} {w : World} {res : (Exec (Option Error) ⊕ Unit) × World}
    (h : ReplicaSpec r.Client webapp d w res)
    (hd : w.store.lookup Deployment ⟨webapp.Namespace, webapp.Name⟩ = some d) :
    ∀ ev ∈ newEvents w res.2, WriteCarries r webapp ev := by
  cases h with
  | nilDeref =>
    intro ev hev
    simp [newEvents] at hev
  | same =>
    intro ev hev
    simp [newEvents] at hev
  | updateErr n e hn hne hwhy =>
    intro ev hev
    simp only [newEvents, List.drop_left, List.mem_singleton] at hev
    subst hev
    exact ⟨fun h => (by cases h), fun _ => ⟨d, _, hd, rfl, rfl, rfl⟩⟩
  | updated n hn hne hinj hpres =>
    intro ev hev
    simp only [newEvents, List.drop_left, List.mem_singleton] at hev
    subst hev
    exact ⟨fun h => (by cases h), fun _ => ⟨d, _, hd, rfl, rfl, rfl⟩⟩

theorem webapp_writeCarries {r : TestOperatorReconciler} {webapp : TestOperator}
    {w : World} {res : Exec (Option Error) × World} (h : WebappSpec r webapp w res) :
    ∀ ev ∈ newEvents w res.2, WriteCarries r webapp ev := by
  have hfound : ∀ {d : Deployment} {w1 : World},
      EnsureSpec r.Client (r.createDeployment webapp) w (.inr d, w1) →
      w1.store.lookup Deployment ⟨webapp.Namespace, webapp.Name⟩ = some d := by
    intro d w1 h1
    cases h1 with
    | found o hd hinj hpres =>
      rw [← keyOf_createDeployment r webapp]
      exact hpres
  have hsame : ∀ {d : Deployment} {w1 w2 : World},
      ReplicaSpec r.Client webapp d w1 (.inr (), w2) → w2 = w1 := by
    intro d w1 w2 h2
    cases h2
    rfl
  cases h with
  | atWorkload out w1 h1 => exact ensure_writeCarries h1 (createDeployment_stamped r webapp)
  | atReplicas d w1 out w2 h1 h2 =>
    intro ev hev
    rw [newEvents_trans h1.ensure_extends h2.replica_extends] at hev
    rcases List.mem_append.1 hev with h | h
    · exact ensure_writeCarries h1 (createDeployment_stamped r webapp) ev h
    · exact replica_writeCarries h2 (hfound h1) ev h
  | atService d w1 w2 out w3 h1 h2 h3 =>
    intro ev hev
    rw [newEvents_trans (h1.ensure_extends.extends_trans h2.replica_extends) h3.ensure_extends,
      newEvents_trans h1.ensure_extends h2.replica_extends] at hev
    simp only [List.mem_append] at hev
    rcases hev with (h | h) | h
    · exact ensure_writeCarries h1 (createDeployment_stamped r webapp) ev h
    · exact replica_writeCarries h2 (hfound h1) ev h
    · exact ensure_writeCarries h3 (createService_stamped r webapp) ev h
  | serviceFound d w1 w2 svc w3 h1 h2 h3 =>
    intro ev hev
    rw [newEvents_trans (h1.ensure_extends.extends_trans h2.replica_extends) h3.ensure_extends,
      newEvents_trans h1.ensure_extends h2.replica_extends] at hev
    simp only [List.mem_append] at hev
    rcases hev with (h | h) | h
    · exact ensure_writeCarries h1 (createDeployment_stamped r webapp) ev h
    · exact replica_writeCarries h2 (hfound h1) ev h
    · exact ensure_writeCarries h3 (createService_stamped r webapp) ev h

theorem cert_writeCarries {r : TestOperatorReconciler} {webapp : TestOperator}
    {w : World} {res : Exec (Option Error) × World} (h : CertSpec r webapp w res) :
    ∀ ev ∈ newEvents w res.2, WriteCarries r webapp ev := by
  cases h with
  | atIssuer out w1 h1 => exact ensure_writeCarries h1 (createIssuer_stamped r webapp)
  | atCert i w1 out w2 h1 h2 =>
    intro ev hev
    rw [newEvents_trans h1.ensure_extends h2.ensure_extends] at hev
    rcases List.mem_append.1 hev with h | h
    · exact ensure_writeCarries h1 (createIssuer_stamped r webapp) ev h
    · exact ensure_writeCarries h2 (createCert_stamped r webapp) ev h
  | certFound i w1 crt w2 h1 h2 =>
    intro ev hev
    rw [newEvents_trans h1.ensure_extends h2.ensure_extends] at hev
    rcases List.mem_append.1 hev with h | h
    · exact ensure_writeCarries h1 (createIssuer_stamped r webapp) ev h
    · exact ensure_writeCarries h2 (createCert_stamped r webapp) ev h

theorem route_writeCarries {r : TestOperatorReconciler} {webapp : TestOperator}
    {w : World} {res : Exec (Option Error) × World} (h : RouteSpec r webapp w res) :
    ∀ ev ∈ newEvents w res.2, WriteCarries r webapp ev := by
  cases h with
  | certStop out w1 h1 _ => exact cert_writeCarries h1
  | atRoute w1 out w2 h1 h2 =>
    intro ev hev
    rw [newEvents_trans h1.cert_extends h2.ensure_extends] at hev
    rcases List.mem_append.1 hev with h | h
    · exact cert_writeCarries h1 ev h
    · exact ensure_writeCarries h2 (createIngress_stamped r webapp) ev h
  | routeFound w1 ing w2 h1 h2 =>
    intro ev hev
    rw [newEvents_trans h1.cert_extends h2.ensure_extends] at hev
    rcases List.mem_append.1 hev with h | h
    · exact cert_writeCarries h1 ev h
    · exact ensure_writeCarries h2 (createIngress_stamped r webapp) ev h

theorem engine_writeCarries {r : TestOperatorReconciler} {webapp : TestOperator}
    {w : World} {res : Exec (Result × Option Error) × World} (h : ConvergeSpec r webapp w res) :
    ∀ ev ∈ newEvents w res.2, WriteCarries r webapp ev := by
  cases h with
  | webappStop out w1 h1 _ => exact webapp_writeCarries h1
  | thenRoute w1 out w2 h1 h2 =>
    intro ev hev
    rw [newEvents_trans h1.webapp_extends h2.route_extends] at hev
    rcases List.mem_append.1 hev with h | h
    · exact webapp_writeCarries h1 ev h
    · exact route_writeCarries h2 ev h

/-- C13, amended: in a pass on a loaded parent, every object handed to a Create
carries exactly one owner reference, the controller reference to that parent;
every object handed to an Update is the workload stored at the identity derived
from the parent with its replica count replaced, and carries the owner
references of that stored workload unchanged. -/
theorem ownership_on_writes (r : TestOperatorReconciler) (req : Request) (w : World)
    (webapp : TestOperator)
    (hload : w.store.lookup TestOperator req.NamespacedName = some webapp)
    (ev : Event) (hmem : ev ∈ passLog r req w) :
    (ev.call.verb = .create →
      ∃ gvk o, r.Scheme.ObjectKinds webapp = .ok gvk ∧ ev.call.object = some o ∧
        o.objectMeta.OwnerReferences = [controllerRef gvk webapp]) ∧
    (ev.call.verb = .update →
      ∃ d o, ev.before.lookup Deployment ⟨webapp.Namespace, webapp.Name⟩ = some d ∧
        ev.call.object = some o ∧ o = .deployment (withReplicas d webapp.Spec.Replicas) ∧
        o.objectMeta.OwnerReferences = d.OwnerReferences) := by
  show WriteCarries r webapp ev
  unfold passLog at hmem
  have hp := Reconcile_spec r req w
  generalize r.Reconcile req w = res at hp hmem
  cases hp with
  | loadErr e hwhy =>
    simp only [List.drop_left, List.mem_singleton] at hmem
    subst hmem
    exact ⟨fun h => (by cases h), fun h => (by cases h)⟩
  | loaded webapp1 serr hinj hpres hserr =>
    have hw : webapp1 = webapp := Option.some.inj (hpres.symm.trans hload)
    subst hw
    have hc := converge_spec r webapp1
      ⟨w.store, w.log ++ [getEvent TestOperator req.NamespacedName none w.store,
        statusEvent webapp1 serr w.store]⟩
    have hext : Extends w ⟨w.store, w.log ++ [getEvent TestOperator req.NamespacedName none w.store,
        statusEvent webapp1 serr w.store]⟩ := ⟨_, rfl⟩
    have h := newEvents_trans hext hc.engine_extends
    have hall := engine_writeCarries hc
    unfold newEvents at h hall
    rw [h] at hmem
    rcases List.mem_append.1 hmem with hin | hin
    · simp only [List.drop_left, List.mem_cons, List.mem_singleton, List.not_mem_nil,
        or_false] at hin
      rcases hin with h1 | h1 <;> subst h1 <;>
        exact ⟨fun h => (by cases h), fun h => (by cases h)⟩
    · exact hall ev hin

/-- Counterexample to C13 as stated: a workload without owner reference is stored
at the identity derived from the parent, with another replica count; the pass
hands it to Update with no owner reference at all. -/
theorem update_without_owner_reference :
    (writes (passLog plainReconciler demoRequest adoptedWorld)).map
        (fun ev => (ev.call.verb, ev.call.kind,
          ev.call.object.map (fun o => o.objectMeta.OwnerReferences.length))) =
      [(.update, .Deployment, some 0), (.create, .ClusterIssuer, some 1),
       (.create, .Ingress, some 1)] := by
  decide

theorem adopted_pass_length : 3 < (passLog plainReconciler demoRequest adoptedWorld).length := by
  decide

/-- Witness of C13, amended: the Update of that pass, which is its fourth call. -/
theorem ownership_on_writes_witness :
    ((passLog plainReconciler demoRequest adoptedWorld).get ⟨3, adopted_pass_length⟩).call.verb =
      .update ∧
    WriteCarries plainReconciler demoParent
      ((passLog plainReconciler demoRequest adoptedWorld).get ⟨3, adopted_pass_length⟩) :=
  ⟨by decide,
    ownership_on_writes plainReconciler demoRequest adoptedWorld demoParent (by rfl)
      ((passLog plainReconciler demoRequest adoptedWorld).get ⟨3, adopted_pass_length⟩)
      (List.get_mem _ _ _)⟩

/-! ### C15: the identity of the certificate -/

theorem webapp_certificates {r : TestOperatorReconciler} {webapp : TestOperator}
    {w : World} {res : Exec (Option Error) × World} (h : WebappSpec r webapp w res) :
    res.2.store.certificates = w.store.certificates := by
  cases h with
  | atWorkload _ _ h1 => cases h1 <;> rfl
  | atReplicas _ _ _ _ h1 h2 => cases h1; cases h2 <;> rfl
  | atService _ _ _ _ _ h1 h2 h3 => cases h1; cases h2; cases h3 <;> rfl
  | serviceFound _ _ _ _ _ h1 h2 h3 => cases h1; cases h2; cases h3; rfl

theorem stage_certificateFound {k1 k2 : Kind} {evs : List Event} (key : NamespacedName)
    (h : StageLog k1 k2 evs) (h1 : k1 ≠ .Certificate) (h2 : k2 ≠ .Certificate) :
    CertificateFound key evs := by
  intro ev hev hk
  rcases h.1 ev hev with h | h
  · exact absurd (h.symm.trans hk) h1
  · exact absurd (h.symm.trans hk) h2

theorem cert_certificateFound {r : TestOperatorReconciler} {webapp : TestOperator}
    {w : World} {res : Exec (Option Error) × World} (h : CertSpec r webapp w res)
    (hinj : r.Client.inject .get .Certificate = none)
    (hcert : (w.store.lookup Certificate (keyOf (r.createCert webapp).1)).isSome = true) :
    CertificateFound (keyOf (r.createCert webapp).1) (newEvents w res.2) := by
  cases h with
  | atIssuer _ _ h1 =>
    cases h1 <;>
      simp [CertificateFound, newEvents, getEvent, createEvent, Resource.kind]
  | atCert _ _ _ _ h1 h2 =>
    cases h1
    cases h2 with
    | stampErr err hd =>
      simp [CertificateFound, newEvents, getEvent, createEvent, Resource.kind]
    | fetchErr e hd hnf hinj2 =>
      rw [show Resource.kind Certificate = Kind.Certificate from rfl, hinj] at hinj2
      cases hinj2
    | createErr e0 e hd hnf hget hwhy =>
      rcases hget with hget | ⟨_, hget⟩
      · rw [show Resource.kind Certificate = Kind.Certificate from rfl, hinj] at hget
        cases hget
      · simp only at hget
        rw [hget] at hcert
        cases hcert
    | created e0 hd hnf hinj2 habs =>
      simp only at habs
      rw [habs] at hcert
      cases hcert
  | certFound _ _ _ _ h1 h2 =>
    cases h1
    cases h2
    simp [CertificateFound, newEvents, getEvent, createEvent, Resource.kind]

theorem route_certificateFound {r : TestOperatorReconciler} {webapp : TestOperator}
    {w : World} {res : Exec (Option Error) × World} (h : RouteSpec r webapp w res)
    (hinj : r.Client.inject .get .Certificate = none)
    (hcert : (w.store.lookup Certificate (keyOf (r.createCert webapp).1)).isSome = true) :
    CertificateFound (keyOf (r.createCert webapp).1) (newEvents w res.2) := by
  have hroute : ∀ {w1 : World} {res2 : (Exec (Option Error) ⊕ Ingress) × World},
      EnsureSpec r.Client (r.createIngress webapp) w1 res2 →
      CertificateFound (keyOf (r.createCert webapp).1) (newEvents w1 res2.2) := by
    intro w1 res2 h2 ev hev hk
    have := h2.routeLog.1 ev hev
    rw [this] at hk
    cases hk
  cases h with
  | certStop _ _ h1 _ => exact cert_certificateFound h1 hinj hcert
  | atRoute _ _ _ h1 h2 =>
    intro ev hev
    rw [newEvents_trans h1.cert_extends h2.ensure_extends] at hev
    rcases List.mem_append.1 hev with h | h
    · exact cert_certificateFound h1 hinj hcert ev h
    · exact hroute h2 ev h
  | routeFound _ _ _ h1 h2 =>
    intro ev hev
    rw [newEvents_trans h1.cert_extends h2.ensure_extends] at hev
    rcases List.mem_append.1 hev with h | h
    · exact cert_certificateFound h1 hinj hcert ev h
    · exact hroute h2 ev h

theorem engine_certificateFound {r : TestOperatorReconciler} {webapp : TestOperator}
    {w : World} {res : Exec (Result × Option Error) × World} (h : ConvergeSpec r webapp w res)
    (hinj : r.Client.inject .get .Certificate = none)
    (hcert : (w.store.lookup Certificate (keyOf (r.createCert webapp).1)).isSome = true) :
    CertificateFound (keyOf (r.createCert webapp).1) (newEvents w res.2) := by
  cases h with
  | webappStop _ _ h1 _ =>
    exact stage_certificateFound _ h1.webapp_stageLog (by decide) (by decide)
  | thenRoute w1 _ _ h1 h2 =>
    have hc : (w1.store.lookup Certificate (keyOf (r.createCert webapp).1)).isSome = true := by
      have := webapp_certificates h1
      simp only [Store.lookup, Resource.table] at hcert ⊢
      rw [this]
      exact hcert
    intro ev hev
    rw [newEvents_trans h1.webapp_extends h2.route_extends] at hev
    rcases List.mem_append.1 hev with h | h
    · exact stage_certificateFound _ h1.webapp_stageLog (by decide) (by decide) ev h
    · exact route_certificateFound h2 hinj hc ev h

/-- C15, amended: the certificates of two parents have the same identity exactly
when the parents are in the same namespace and declare the same host.  For two
such parents, once the store holds a certificate at that identity and fetches of
certificates meet no failure, every call on a certificate in a pass of the second
parent is a fetch at that identity that succeeds: the certificate is found, and
none is created. -/
theorem certificate_shared_within_namespace (r : TestOperatorReconciler) (a b : TestOperator) :
    (keyOf (r.createCert a).1 = keyOf (r.createCert b).1 ↔
      a.Namespace = b.Namespace ∧ a.Spec.Host = b.Spec.Host) ∧
    (∀ (req : Request) (w : World),
      a.Namespace = b.Namespace → a.Spec.Host = b.Spec.Host →
      w.store.lookup TestOperator req.NamespacedName = some b →
      (w.store.lookup Certificate (keyOf (r.createCert a).1)).isSome = true →
      r.Client.inject .get .Certificate = none →
      ∀ ev ∈ passLog r req w, ev.call.kind = .Certificate →
        ev.call.verb = .get ∧ ev.call.key = keyOf (r.createCert a).1 ∧ ev.call.err = none) := by
  have hkey : keyOf (r.createCert a).1 = keyOf (r.createCert b).1 ↔
      a.Namespace = b.Namespace ∧ a.Spec.Host = b.Spec.Host := by
    rw [keyOf_createCert, keyOf_createCert]
    constructor
    · intro h
      injection h with h1 h2
      exact ⟨h1, h2⟩
    · rintro ⟨h1, h2⟩
      rw [h1, h2]
  refine ⟨hkey, ?_⟩
  intro req w hns hhost hload hcert hinj ev hmem
  have hk := hkey.2 ⟨hns, hhost⟩
  rw [hk] at hcert ⊢
  unfold passLog at hmem
  have hp := Reconcile_spec r req w
  generalize r.Reconcile req w = res at hp hmem
  cases hp with
  | loadErr e hwhy =>
    simp only [List.drop_left, List.mem_singleton] at hmem
    subst hmem
    intro h
    cases h
  | loaded webapp1 serr hinj1 hpres hserr =>
    have hw : webapp1 = b := Option.some.inj (hpres.symm.trans hload)
    subst hw
    have hc := converge_spec r webapp1
      ⟨w.store, w.log ++ [getEvent TestOperator req.NamespacedName none w.store,
        statusEvent webapp1 serr w.store]⟩
    have hext : Extends w ⟨w.store, w.log ++ [getEvent TestOperator req.NamespacedName none w.store,
        statusEvent webapp1 serr w.store]⟩ := ⟨_, rfl⟩
    have h := newEvents_trans hext hc.engine_extends
    have hall := engine_certificateFound hc hinj hcert
    unfold newEvents at h hall
    rw [h] at hmem
    rcases List.mem_append.1 hmem with hin | hin
    · simp only [List.drop_left, List.mem_cons, List.mem_singleton, List.not_mem_nil,
        or_false] at hin
      rcases hin with h1 | h1 <;> subst h1 <;> intro h <;> cases h
    · exact hall ev hin

/-- Counterexample to C15 as stated: a parent in another namespace declares the
host of `demoParent`, whose certificate is stored; the identities of the two
certificates differ, and the pass of the new parent does not find a certificate
and creates another. -/
theorem certificate_per_namespace :
    cousinParent.Spec.Host = demoParent.Spec.Host ∧
    keyOf (plainReconciler.createCert cousinParent).1 ≠
      keyOf (plainReconciler.createCert demoParent).1 ∧
    (cousinWorld.store.lookup Certificate (keyOf (plainReconciler.createCert demoParent).1)).isSome
      = true ∧
    (passLog plainReconciler cousinRequest cousinWorld).map
        (fun ev => (ev.call.verb, ev.call.kind, ev.call.key, ev.call.err)) =
      [(.get, .TestOperator, ⟨"other", "blog"⟩, none),
       (.statusUpdate, .TestOperator, ⟨"other", "blog"⟩, none),
       (.get, .Deployment, ⟨"other", "blog"⟩, some (.status .NotFound "not found")),
       (.create, .Deployment, ⟨"other", "blog"⟩, none),
       (.get, .ClusterIssuer, ⟨"other", "letsencrypt-prod"⟩, none),
       (.get, .Certificate, ⟨"other", "example.com"⟩, some (.status .NotFound "not found")),
       (.create, .Certificate, ⟨"other", "example.com"⟩, none),
       (.get, .Ingress, ⟨"other", "blog-ingress"⟩, some (.status .NotFound "not found")),
       (.create, .Ingress, ⟨"other", "blog-ingress"⟩, none)] := by
  refine ⟨by decide, by decide, by decide, by decide⟩

/-- Witness of C15, amended: a parent in the namespace of `demoParent` with the
same host; its pass fetches the stored certificate and creates none. -/
theorem certificate_shared_within_namespace_witness :
    (passLog plainReconciler twinRequest twinWorld).map
        (fun ev => (ev.call.verb, ev.call.kind, ev.call.key, ev.call.err)) =
      [(.get, .TestOperator, ⟨"ns", "twin"⟩, none),
       (.statusUpdate, .TestOperator, ⟨"ns", "twin"⟩, none),
       (.get, .Deployment, ⟨"ns", "twin"⟩, some (.status .NotFound "not found")),
       (.create, .Deployment, ⟨"ns", "twin"⟩, none),
       (.get, .ClusterIssuer, ⟨"ns", "letsencrypt-prod"⟩, none),
       (.get, .Certificate, ⟨"ns", "example.com"⟩, none),
       (.get, .Ingress, ⟨"ns", "twin-ingress"⟩, some (.status .NotFound "not found")),
       (.create, .Ingress, ⟨"ns", "twin-ingress"⟩, none)] ∧
    ∀ ev ∈ passLog plainReconciler twinRequest twinWorld, ev.call.kind = .Certificate →
      ev.call.verb = .get ∧ ev.call.key = keyOf (plainReconciler.createCert demoParent).1 ∧
        ev.call.err = none :=
  ⟨by decide,
    (certificate_shared_within_namespace plainReconciler demoParent twinParent).2
      twinRequest twinWorld rfl rfl (by rfl) (by decide) rfl⟩

end OperatorTest
